import Mathlib

/-!
Shallow embedding of the incremental ProductBoard → Notion sync engine
(`scripts/sync-productboard-to-notion.js`).

JavaScript values that flow through the change detector are modelled by
`JsVal` (string / null / undefined).  Optional string fields of source
records are modelled as `Option String`, with JS truthiness (`null`,
`undefined` and `""` are falsy) made explicit by `optTruthy`.  The Notion
target store is modelled as two insertion-ordered association lists of
pages; payloads are association lists from property names to property
values, with `none` standing for JS `undefined` (a property omitted after
`removeUndefinedProperties`).  Every network effect of the real script is
represented by an oracle in `SyncEnv`: per-call success/failure of the
Notion page API, success/failure of the two index queries, and the results
of the three ProductBoard fetches.
-/

namespace PBSync

/-- A JavaScript value as used in the sync script's comparison snapshots:
a string, `null`, or `undefined`. -/
inductive JsVal where
  | jsUndefined
  | null
  | str (s : String)
deriving DecidableEq, Repr

/-- The normalisation applied by `detectChanges`:
`oldValue === null || oldValue === undefined ? null : String(oldValue)`.
`none` is the canonical empty marker. -/
def normJs : JsVal → Option String
  | .jsUndefined => none
  | .null => none
  | .str s => some s

/-- JS property read `obj[key]` on an object modelled as an association
list: a missing key yields `undefined`. -/
def jsGet (obj : List (String × JsVal)) (k : String) : JsVal :=
  match obj.find? (fun p => p.1 = k) with
  | some p => p.2
  | none => .jsUndefined

/-- `detectChanges(oldData, newData)` from the sync script: iterate the
entries of `newData`, normalise both sides, collect the differing keys
with their old/new values, and return `null` when nothing differs. -/
def detectChanges (oldData newData : List (String × JsVal)) :
    Option (List (String × JsVal × JsVal)) :=
  match (newData.filter (fun p => normJs (jsGet oldData p.1) ≠ normJs p.2)).map
      (fun p => (p.1, jsGet oldData p.1, p.2)) with
  | [] => none
  | cs => some cs

/-- JS truthiness of an optional string: `null`/`undefined` and `""` are
falsy. -/
def optTruthy : Option String → Bool
  | none => false
  | some s => s ≠ ""

/-- The JS idiom `x || null` on an optional string value. -/
def jsOrNull (x : Option String) : Option String :=
  if optTruthy x then x else none

/-- A JS `||` chain `a || b || ... || null`: the first truthy value, else
`null`. -/
def firstTruthy (xs : List (Option String)) : Option String :=
  (xs.find? optTruthy).join

/-- JS `String.prototype.toLowerCase`, modelled character-wise. -/
def jsToLowerCase (s : String) : String :=
  ⟨s.data.map Char.toLower⟩

/-- `normalizeHealth(health)` from the sync script: falsy input
(`null`/missing/`""`) yields `"unknown"`, otherwise the lowercased
string. -/
def normalizeHealth : Option String → String
  | none => "unknown"
  | some s => if s = "" then "unknown" else jsToLowerCase s

/-- `formatDate(dateString)` from the sync script: falsy input
(`null`/missing/`""`) yields `null`, otherwise `dateString.split('T')[0]`
(the separator is the single character `'T'`, so the JS split is the
character-predicate split). -/
def formatDate : Option String → Option String
  | none => none
  | some s => if s = "" then none else some ((s.split (fun c => c = 'T')).headD "")

/-- The calendar-date prefix of a timestamp: everything before the first
`'T'`.  Stated from the spec's words, to compare with `formatDate`. -/
def dateBeforeT (s : String) : String :=
  ⟨s.data.takeWhile (fun c => c ≠ 'T')⟩

/-! ## Source records -/

/-- A raw release object as returned by the ProductBoard `/releases`
endpoint, restricted to the fields the scripts read.  `releaseGroupId`
models `release.releaseGroup?.id`; `productManagerName` models
`release.productManager?.name`, and so on. -/
structure RawRelease where
  id : String
  name : String
  startDate : Option String := none
  endDate : Option String := none
  state : Option String := none
  releaseGroupId : Option String := none
  productManagerName : Option String := none
  engineeringLeadName : Option String := none
deriving DecidableEq, Repr

/-- A raw feature object as returned by `/features/:id`, restricted to the
fields `fetchFeatureDetails` reads.  The five `pm*` fields model the
fallback chain `feature.owner?.email || feature.productManager?.name ||
... || null`, and the `el*` fields the engineering-lead chain. -/
structure RawFeature where
  id : String
  name : String
  statusName : Option String := none
  lastHealthStatus : Option String := none
  ownerEmail : Option String := none
  pmName : Option String := none
  pmDisplayName : Option String := none
  pmEmail : Option String := none
  pmString : Option String := none
  elName : Option String := none
  elDisplayName : Option String := none
  elEmail : Option String := none
  elString : Option String := none
  linksHtml : Option String := none
deriving DecidableEq, Repr

/-- A normalised release as produced by `fetchAllReleases`. -/
structure Release where
  id : String
  name : String
  startDate : Option String := none
  endDate : Option String := none
  state : Option String := none
  releaseGroup : Option String := none
  productManager : Option String := none
  engineeringLead : Option String := none
deriving DecidableEq, Repr

/-- A normalised feature as produced by `fetchFeatureDetails`, together
with the `releaseId`/`releaseIds` fields that `main` attaches afterwards. -/
structure Feature where
  id : String
  name : String
  status : Option String := none
  health : String := "unknown"
  productManager : Option String := none
  engineeringLead : Option String := none
  productboardLink : Option String := none
  releaseId : Option String := none
  releaseIds : List String := []
deriving DecidableEq, Repr

/-- `fetchAllReleases` (sync script, lines 108–122): normalise each raw
release.  Dates go through `formatDate`; the `?.x || null` chains go
through `jsOrNull`; `state` is passed through untouched. -/
def fetchAllReleases (raws : List RawRelease) : List Release :=
  raws.map (fun r =>
    { id := r.id
      name := r.name
      startDate := formatDate r.startDate
      endDate := formatDate r.endDate
      state := r.state
      releaseGroup := jsOrNull r.releaseGroupId
      productManager := jsOrNull r.productManagerName
      engineeringLead := jsOrNull r.engineeringLeadName })

/-- The body of `fetchFeatureDetails` after a successful API response:
`null` data yields `null`, otherwise the normalised feature. -/
def fetchFeatureDetails : Option RawFeature → Option Feature
  | none => none
  | some f => some
      { id := f.id
        name := f.name
        status := jsOrNull f.statusName
        health := normalizeHealth (jsOrNull f.lastHealthStatus)
        productManager :=
          firstTruthy [f.ownerEmail, f.pmName, f.pmDisplayName, f.pmEmail, f.pmString]
        engineeringLead :=
          firstTruthy [f.elName, f.elDisplayName, f.elEmail, f.elString]
        productboardLink := jsOrNull f.linksHtml
        releaseId := none
        releaseIds := [] }

/-- `fetchFeatureAssignments` result handling: on success,
`assignments.map(a => a.feature?.id).filter(Boolean)`; a caught error
yields the empty list. -/
def fetchAssignments : Except String (List (Option String)) → List String
  | .error _ => []
  | .ok xs => (xs.filterMap id).filter (fun s => s ≠ "")

/-! ## Notion payloads and pages -/

/-- A Notion property value as built by the two payload mappers. -/
inductive NProp where
  | title (s : String)
  | richText (xs : List String)
  | pbSelect (s : String)
  | url (s : String)
  | pageRelation (ids : List String)
deriving DecidableEq, Repr

/-- A payload before `removeUndefinedProperties`: property name to value,
`none` standing for JS `undefined`. -/
abbrev RawPayload := List (String × Option NProp)

/-- A cleaned payload as sent to the Notion API. -/
abbrev Payload := List (String × NProp)

/-- `mapReleaseToNotion(release)`: Name and Productboard ID always;
State and Release Group only when truthy, else `undefined`. -/
def mapReleaseToNotion (r : Release) : RawPayload :=
  [ ("Name", some (.title r.name)),
    ("Productboard ID", some (.richText [r.id])),
    ("State",
      match r.state with
      | some s => if s ≠ "" then some (.pbSelect s) else none
      | none => none),
    ("Release Group",
      match r.releaseGroup with
      | some g => if g ≠ "" then some (.richText [g]) else none
      | none => none) ]

/-- `mapFeatureToNotion(feature, releasePageId)`: Name, Feature ID and
Product Manager always present (Product Manager's rich-text list is empty
when the source value is falsy, clearing any stored value); Status,
Health Status, Release and Productboard Link only when truthy. -/
def mapFeatureToNotion (f : Feature) (releasePageId : Option String) : RawPayload :=
  [ ("Name", some (.title f.name)),
    ("Feature ID", some (.richText [f.id])),
    ("Status",
      match f.status with
      | some s => if s ≠ "" then some (.pbSelect s) else none
      | none => none),
    ("Health Status", if f.health ≠ "" then some (.pbSelect f.health) else none),
    ("Product Manager", some (.richText
      (match f.productManager with
       | some s => if s ≠ "" then [s] else []
       | none => []))),
    ("Release",
      match releasePageId with
      | some i => if i ≠ "" then some (.pageRelation [i]) else none
      | none => none),
    ("Productboard Link",
      match f.productboardLink with
      | some u => if u ≠ "" then some (.url u) else none
      | none => none) ]

/-- `removeUndefinedProperties(obj)`: drop the `undefined` entries. -/
def removeUndefinedProperties (props : RawPayload) : Payload :=
  props.filterMap (fun p =>
    match p.2 with
    | some v => some (p.1, v)
    | none => none)

/-- Stored state of a Notion release page, restricted to the properties
the scripts read or write.  Rich-text and relation properties are stored
as the list of their items; select/url properties as an optional label. -/
structure ReleasePage where
  name : String := ""
  pbId : List String := []
  state : Option String := none
  releaseGroup : List String := []
  features : List String := []
  startDate : Option String := none
  endDate : Option String := none
  productManager : List String := []
  engineeringLead : List String := []
deriving DecidableEq, Repr

/-- Stored state of a Notion feature page, restricted to the properties
the scripts read or write. -/
structure FeaturePage where
  name : String := ""
  pbId : List String := []
  status : Option String := none
  health : Option String := none
  productManager : List String := []
  release : List String := []
  productboardLink : Option String := none
deriving DecidableEq, Repr

/-- Apply one payload entry to a release page (the effect of a Notion
create/update on the stored properties).  Unknown or mis-typed entries
change nothing. -/
def applyReleaseProp (p : ReleasePage) : String × NProp → ReleasePage
  | ("Name", .title s) => { p with name := s }
  | ("Productboard ID", .richText xs) => { p with pbId := xs }
  | ("State", .pbSelect s) => { p with state := some s }
  | ("Release Group", .richText xs) => { p with releaseGroup := xs }
  | ("Features", .pageRelation ids) => { p with features := ids }
  | _ => p

/-- Apply a cleaned payload to a release page, entry by entry. -/
def applyReleasePatch (p : ReleasePage) (patch : Payload) : ReleasePage :=
  patch.foldl applyReleaseProp p

/-- Apply one payload entry to a feature page. -/
def applyFeatureProp (p : FeaturePage) : String × NProp → FeaturePage
  | ("Name", .title s) => { p with name := s }
  | ("Feature ID", .richText xs) => { p with pbId := xs }
  | ("Status", .pbSelect s) => { p with status := some s }
  | ("Health Status", .pbSelect s) => { p with health := some s }
  | ("Product Manager", .richText xs) => { p with productManager := xs }
  | ("Release", .pageRelation ids) => { p with release := ids }
  | ("Productboard Link", .url u) => { p with productboardLink := u }
  | _ => p

/-- Apply a cleaned payload to a feature page, entry by entry. -/
def applyFeaturePatch (p : FeaturePage) (patch : Payload) : FeaturePage :=
  patch.foldl applyFeatureProp p

/-- Read `xs?.[0]?.plain_text || null` (also used for `relation?.[0]?.id
|| null`): the first item of a stored list, with `""` collapsing to
`null`. -/
def readFirst (xs : List String) : Option String :=
  match xs.head? with
  | some s => if s = "" then none else some s
  | none => none

/-- Lift an optional string to the `JsVal` it denotes in a snapshot
(`null` or a string). -/
def optJs : Option String → JsVal
  | none => .null
  | some s => .str s

/-- `getNotionPageData(notion, pageId, 'release')`: the snapshot object
built from a release page's stored properties. -/
def releaseSnapshot (p : ReleasePage) : List (String × JsVal) :=
  [ ("name", .str p.name),
    ("state", optJs (jsOrNull p.state)),
    ("releaseGroup", optJs (readFirst p.releaseGroup)) ]

/-- `getNotionPageData(notion, pageId, 'feature')`: the snapshot object
built from a feature page's stored properties. -/
def featureSnapshot (p : FeaturePage) : List (String × JsVal) :=
  [ ("name", .str p.name),
    ("status", optJs (jsOrNull p.status)),
    ("health", optJs (jsOrNull p.health)),
    ("productManager", optJs (readFirst p.productManager)),
    ("productboardLink", optJs (jsOrNull p.productboardLink)),
    ("releaseId", optJs (readFirst p.release)) ]

/-- The fresh ProductBoard-side comparison object for a release
(`pbData`, sync script lines 507–511). -/
def releasePbData (r : Release) : List (String × JsVal) :=
  [ ("name", .str r.name),
    ("state", optJs r.state),
    ("releaseGroup", optJs r.releaseGroup) ]

/-- The fresh ProductBoard-side comparison object for a feature
(`pbData`, sync script lines 594–601), with the mapped release page id in
place of the external release id. -/
def featurePbData (f : Feature) (releasePageId : JsVal) : List (String × JsVal) :=
  [ ("name", .str f.name),
    ("status", optJs f.status),
    ("health", .str f.health),
    ("productManager", optJs f.productManager),
    ("productboardLink", optJs f.productboardLink),
    ("releaseId", releasePageId) ]

/-! ## JS `Map` model

Insertion-ordered association lists with `set` replacing an existing key
in place and appending a new key at the end, matching `Map.prototype`. -/

/-- `map.get(k)`: the value at the first (only) entry for `k`. -/
def mapGet {β : Type} (m : List (String × β)) (k : String) : Option β :=
  (m.find? (fun p => p.1 = k)).map Prod.snd

/-- `map.set(k, v)`: replace in place, or append a fresh entry. -/
def mapSet {β : Type} (m : List (String × β)) (k : String) (v : β) :
    List (String × β) :=
  if (m.find? (fun p => p.1 = k)).isSome then
    m.map (fun p => if p.1 = k then (p.1, v) else p)
  else
    m ++ [(k, v)]

/-! ## The sync run -/

/-- The Notion workspace state the run manipulates: two page collections
(page id → stored page, in creation order) and a counter from which fresh
page ids are minted. -/
structure Store where
  releases : List (String × ReleasePage) := []
  features : List (String × FeaturePage) := []
  nextId : Nat := 0
deriving DecidableEq, Repr

/-- A freshly minted opaque page id. -/
def mkPageId (n : Nat) : String :=
  String.mk ('p' :: 'g' :: List.replicate n '*')

/-- Environment of one run: configuration values and one oracle per kind
of network interaction.  `pageCallFails n` decides whether the `n`-th
Notion page-API call (retrieve, create or update, in call order) fails. -/
structure SyncEnv where
  notionApiKey : Option String := some "notion-key"
  releasesDbId : Option String := some "releases-db"
  featuresDbId : Option String := some "features-db"
  productboardToken : Option String := some "pb-token"
  releasesResult : Except String (List RawRelease) := .ok []
  assignmentsResult : String → Except String (List (Option String)) := fun _ => .ok []
  featureDetailResult : String → Except String (Option RawFeature) := fun _ => .ok none
  queryReleasesDbOk : Bool := true
  queryFeaturesDbOk : Bool := true
  pageCallFails : Nat → Bool := fun _ => false

/-- The errors that abort the whole run. -/
inductive FatalError where
  | missingEnv
  | queryReleasesDbFailed
  | queryFeaturesDbFailed
  | fetchReleasesFailed (msg : String)
deriving DecidableEq, Repr

/-- Per-entity counters of the final summary. -/
structure Stats where
  created : Nat := 0
  updated : Nat := 0
  unchanged : Nat := 0
deriving DecidableEq, Repr

/-- The two counter groups of `stats`. -/
structure RunStats where
  releases : Stats := {}
  features : Stats := {}
deriving DecidableEq, Repr

/-- One Notion page-API call, as recorded at the call site. -/
inductive NCall where
  | retrievePage (pageId : String)
  | createRelease (payload : Payload)
  | updateRelease (pageId : String) (payload : Payload)
  | createFeature (payload : Payload)
  | updateFeature (pageId : String) (payload : Payload)
  | updateRelations (pageId : String) (featurePageIds : List String)
deriving DecidableEq, Repr

/-- One error-log line written by a per-record `catch` handler, keyed by
the record's display name. -/
inductive ErrEntry where
  | releaseCreateFailed (name : String)
  | releaseUpdateFailed (name : String)
  | featureCreateFailed (name : String)
  | featureUpdateFailed (name : String)
  | relationsUpdateFailed (name : String)
deriving DecidableEq, Repr

/-- The mutable state threaded through `main`'s loops. -/
structure RunState where
  store : Store
  stats : RunStats := {}
  idMapReleases : List (String × String) := []
  idMapFeatures : List (String × String) := []
  releasePageMap : List (String × String) := []
  featurePageMap : List (String × String) := []
  calls : List NCall := []
  errors : List ErrEntry := []
  callIdx : Nat := 0
deriving Repr

/-- Record one Notion page call and advance the call counter; returns the
failure verdict of this call together with the updated state. -/
def recordCall (env : SyncEnv) (st : RunState) (c : NCall) : Bool × RunState :=
  (env.pageCallFails st.callIdx,
   { st with calls := st.calls ++ [c], callIdx := st.callIdx + 1 })

/-- Update a release page in place in the store. -/
def updateReleaseInStore (s : Store) (pid : String) (patch : Payload) : Store :=
  { s with releases :=
      s.releases.map (fun q =>
        if q.1 = pid then (q.1, applyReleasePatch q.2 patch) else q) }

/-- Update a feature page in place in the store. -/
def updateFeatureInStore (s : Store) (pid : String) (patch : Payload) : Store :=
  { s with features :=
      s.features.map (fun q =>
        if q.1 = pid then (q.1, applyFeaturePatch q.2 patch) else q) }

/-- One iteration of the release sync loop (sync script lines 495–574). -/
def syncReleaseStep (env : SyncEnv) (st : RunState) (r : Release) : RunState :=
  match mapGet st.idMapReleases r.id with
  | some pid =>
      let (fail, st) := recordCall env st (.retrievePage pid)
      let notionData : Option (List (String × JsVal)) :=
        if fail then none
        else (mapGet st.store.releases pid).map releaseSnapshot
      match notionData with
      | some oldData =>
          match detectChanges oldData (releasePbData r) with
          | some _ =>
              let payload := removeUndefinedProperties (mapReleaseToNotion r)
              let (fail2, st) := recordCall env st (.updateRelease pid payload)
              let st :=
                if fail2 then
                  { st with errors := st.errors ++ [.releaseUpdateFailed r.name] }
                else
                  { st with store := updateReleaseInStore st.store pid payload,
                            stats := { st.stats with releases :=
                              { st.stats.releases with
                                  updated := st.stats.releases.updated + 1 } } }
              { st with releasePageMap := mapSet st.releasePageMap r.id pid }
          | none =>
              { st with stats := { st.stats with releases :=
                          { st.stats.releases with
                              unchanged := st.stats.releases.unchanged + 1 } },
                        releasePageMap := mapSet st.releasePageMap r.id pid }
      | none =>
          { st with stats := { st.stats with releases :=
                      { st.stats.releases with
                          unchanged := st.stats.releases.unchanged + 1 } },
                    releasePageMap := mapSet st.releasePageMap r.id pid }
  | none =>
      let payload := removeUndefinedProperties (mapReleaseToNotion r)
      let (fail, st) := recordCall env st (.createRelease payload)
      if fail then
        { st with errors := st.errors ++ [.releaseCreateFailed r.name] }
      else
        let pid := mkPageId st.store.nextId
        let page := applyReleasePatch {} payload
        { st with
            store := { st.store with
                         releases := st.store.releases ++ [(pid, page)],
                         nextId := st.store.nextId + 1 },
            releasePageMap := mapSet st.releasePageMap r.id pid,
            idMapReleases := mapSet st.idMapReleases r.id pid,
            stats := { st.stats with releases :=
              { st.stats.releases with created := st.stats.releases.created + 1 } } }

/-- The JS value of `releasePageId` in the feature loop, as a function of
a release page map:
`feature.releaseId ? releasePageMap.get(feature.releaseId) : null`. -/
def relJsOf (rpm : List (String × String)) (f : Feature) : JsVal :=
  match f.releaseId with
  | some rid =>
      if rid ≠ "" then
        match mapGet rpm rid with
        | some p => .str p
        | none => .jsUndefined
      else .null
  | none => .null

/-- The JS value of `releasePageId` at a given loop state. -/
def featureReleasePageId (st : RunState) (f : Feature) : JsVal :=
  relJsOf st.releasePageMap f

/-- Coerce the JS `releasePageId` value back to the optional string
consumed by `mapFeatureToNotion` (truthiness is what matters there). -/
def jsToOpt : JsVal → Option String
  | .str s => some s
  | _ => none

/-- One iteration of the feature sync loop (sync script lines 581–680). -/
def syncFeatureStep (env : SyncEnv) (st : RunState) (f : Feature) : RunState :=
  let relJs := featureReleasePageId st f
  match mapGet st.idMapFeatures f.id with
  | some pid =>
      let (fail, st) := recordCall env st (.retrievePage pid)
      let notionData : Option (List (String × JsVal)) :=
        if fail then none
        else (mapGet st.store.features pid).map featureSnapshot
      match notionData with
      | some oldData =>
          let releaseChanged := jsGet oldData "releaseId" ≠ relJs
          let changes := detectChanges oldData (featurePbData f relJs)
          let st :=
            if changes.isSome || releaseChanged then
              let payload := removeUndefinedProperties (mapFeatureToNotion f (jsToOpt relJs))
              let (fail2, st) := recordCall env st (.updateFeature pid payload)
              if fail2 then
                { st with errors := st.errors ++ [.featureUpdateFailed f.name] }
              else
                { st with store := updateFeatureInStore st.store pid payload,
                          stats := { st.stats with features :=
                            { st.stats.features with
                                updated := st.stats.features.updated + 1 } } }
            else
              { st with stats := { st.stats with features :=
                          { st.stats.features with
                              unchanged := st.stats.features.unchanged + 1 } } }
          { st with featurePageMap := mapSet st.featurePageMap f.id pid }
      | none =>
          let st :=
            { st with stats := { st.stats with features :=
                        { st.stats.features with
                            unchanged := st.stats.features.unchanged + 1 } } }
          { st with featurePageMap := mapSet st.featurePageMap f.id pid }
  | none =>
      let payload := removeUndefinedProperties (mapFeatureToNotion f (jsToOpt relJs))
      let (fail, st) := recordCall env st (.createFeature payload)
      if fail then
        { st with errors := st.errors ++ [.featureCreateFailed f.name] }
      else
        let pid := mkPageId st.store.nextId
        let page := applyFeaturePatch {} payload
        { st with
            store := { st.store with
                         features := st.store.features ++ [(pid, page)],
                         nextId := st.store.nextId + 1 },
            featurePageMap := mapSet st.featurePageMap f.id pid,
            idMapFeatures := mapSet st.idMapFeatures f.id pid,
            stats := { st.stats with features :=
              { st.stats.features with created := st.stats.features.created + 1 } } }

/-- One iteration of the relation reconciler loop (sync script lines
692–728), given the precomputed `featuresByRelease` map. -/
def reconcileStep (env : SyncEnv) (fbr : List (String × List Feature))
    (st : RunState) (r : Release) : RunState :=
  match mapGet st.releasePageMap r.id with
  | some pid =>
      if pid ≠ "" then
        let releaseFeatures := (mapGet fbr r.id).getD []
        let featurePageIds :=
          ((releaseFeatures.map (fun f => mapGet st.featurePageMap f.id)).filterMap id).filter
            (fun s => s ≠ "")
        if featurePageIds ≠ [] then
          let (fail, st) := recordCall env st (.updateRelations pid featurePageIds)
          if fail then
            { st with errors := st.errors ++ [.relationsUpdateFailed r.name] }
          else
            { st with store := updateReleaseInStore st.store pid
                        [("Features", .pageRelation featurePageIds)] }
        else st
      else st
  | none => st

/-! ## Derived source data (pure functions of the environment) -/

/-- The normalised release list of a run (empty when listing fails; that
case is fatal and never reaches the loops). -/
def sourceReleases (env : SyncEnv) : List Release :=
  match env.releasesResult with
  | .ok raws => fetchAllReleases raws
  | .error _ => []

/-- `releaseFeatureMap`: release id → assigned feature ids, built by
`Map.set` over the releases in order. -/
def sourceRelFeatMap (env : SyncEnv) : List (String × List String) :=
  (sourceReleases env).foldl
    (fun m r => mapSet m r.id (fetchAssignments (env.assignmentsResult r.id))) []

/-- Insert into the `allFeatureIds` set (JS `Set`: insertion order, first
occurrence kept). -/
def insertUnique (l : List String) (x : String) : List String :=
  if l.contains x then l else l ++ [x]

/-- `featureIdsArray`: the unique feature ids, in first-seen order. -/
def sourceFeatureIds (env : SyncEnv) : List String :=
  (((sourceRelFeatMap env).map Prod.snd).flatten).foldl insertUnique []

/-- The release ids a feature id is assigned to, in map order
(`releaseFeatureMap.forEach` collecting on `includes`). -/
def releaseIdsOf (env : SyncEnv) (fid : String) : List String :=
  ((sourceRelFeatMap env).filter (fun p => p.2.contains fid)).map Prod.fst

/-- The synced feature a feature id contributes, if any: `null` data or a
caught fetch error mean the id is skipped. -/
def featureOf (env : SyncEnv) (fid : String) : Option Feature :=
  match env.featureDetailResult fid with
  | .error _ => none
  | .ok raw =>
      match fetchFeatureDetails raw with
      | none => none
      | some f =>
          some { f with
                   releaseId := jsOrNull (releaseIdsOf env fid).head?
                   releaseIds := releaseIdsOf env fid }

/-- The `features` array of a run. -/
def sourceFeatures (env : SyncEnv) : List Feature :=
  (sourceFeatureIds env).filterMap (featureOf env)

/-- `featuresByRelease`: release id → the synced features assigned to it. -/
def featuresByRelease (env : SyncEnv) : List (String × List Feature) :=
  (sourceReleases env).foldl
    (fun m r => mapSet m r.id
      ((sourceFeatures env).filter
        (fun f => ((mapGet (sourceRelFeatMap env) r.id).getD []).contains f.id))) []

/-- `buildIdMapping` over the release pages, from an accumulator: each
page's stored external id — its first rich-text item, skipped when falsy
— mapped to its page id. -/
def idxRelAux (m0 : List (String × String)) (ps : List (String × ReleasePage)) :
    List (String × String) :=
  ps.foldl
    (fun m p =>
      match readFirst p.2.pbId with
      | some pbId => mapSet m pbId p.1
      | none => m) m0

/-- The release half of the identity map built from the store. -/
def idxReleases (s : Store) : List (String × String) :=
  idxRelAux [] s.releases

/-- `buildIdMapping` over the feature pages, from an accumulator. -/
def idxFeatAux (m0 : List (String × String)) (ps : List (String × FeaturePage)) :
    List (String × String) :=
  ps.foldl
    (fun m p =>
      match readFirst p.2.pbId with
      | some pbId => mapSet m pbId p.1
      | none => m) m0

/-- The feature half of the identity map built from the store. -/
def idxFeatures (s : Store) : List (String × String) :=
  idxFeatAux [] s.features

/-- Whether the four required environment variables are all present and
truthy (`!KEY` treats `""` as missing). -/
def configOk (env : SyncEnv) : Bool :=
  optTruthy env.notionApiKey && optTruthy env.releasesDbId &&
    optTruthy env.featuresDbId && optTruthy env.productboardToken

/-- `main`: validate configuration, build the identity maps, fetch the
source data, then run the three loops.  Fatal outcomes are the `Except`
errors; everything per-record is absorbed into the run state. -/
def runSync (env : SyncEnv) (store0 : Store) : Except FatalError RunState :=
  if ¬ configOk env then .error .missingEnv
  else if ¬ env.queryReleasesDbOk then .error .queryReleasesDbFailed
  else if ¬ env.queryFeaturesDbOk then .error .queryFeaturesDbFailed
  else
    match env.releasesResult with
    | .error m => .error (.fetchReleasesFailed m)
    | .ok _ =>
        let st0 : RunState :=
          { store := store0
            idMapReleases := idxReleases store0
            idMapFeatures := idxFeatures store0 }
        let st1 := (sourceReleases env).foldl (syncReleaseStep env) st0
        let st2 := (sourceFeatures env).foldl (syncFeatureStep env) st1
        let st3 := (sourceReleases env).foldl
          (reconcileStep env (featuresByRelease env)) st2
        .ok st3

/-! ## Derived definitions used by the verification -/

/-- The release-page fields the incremental sync never writes. -/
def releaseUntrackedFields (p : ReleasePage) :
    Option String × Option String × List String × List String :=
  (p.startDate, p.endDate, p.productManager, p.engineeringLead)

/-- The untracked release-page fields survive any store transition the
run performs. -/
def ReleasePagesPreserved (s s' : Store) : Prop :=
  ∀ pid page, mapGet s.releases pid = some page →
    ∃ page', mapGet s'.releases pid = some page' ∧
      releaseUntrackedFields page' = releaseUntrackedFields page

/-- A store holding one release page with a start date, for instantiating
the frame theorem. -/
def c9Store : Store :=
  { releases := [("p1", { name := "R1", pbId := ["r1"], startDate := some "2025-05-05" })]
    features := []
    nextId := 1 }

/-- Error-log entries of the release sync loop. -/
def isRelErr : ErrEntry → Bool
  | .releaseCreateFailed _ => true
  | .releaseUpdateFailed _ => true
  | _ => false

/-- Error-log entries of the feature sync loop. -/
def isFeatErr : ErrEntry → Bool
  | .featureCreateFailed _ => true
  | .featureUpdateFailed _ => true
  | _ => false

/-- Releases accounted for so far: the three summary counters plus the
release-loop error-log lines. -/
def relAccounted (st : RunState) : Nat :=
  st.stats.releases.created + st.stats.releases.updated + st.stats.releases.unchanged +
    (st.errors.filter isRelErr).length

/-- Features accounted for so far. -/
def featAccounted (st : RunState) : Nat :=
  st.stats.features.created + st.stats.features.updated + st.stats.features.unchanged +
    (st.errors.filter isFeatErr).length

/-- A run whose single release create call fails. -/
def envFailingCreate : SyncEnv :=
  { releasesResult := .ok [ { id := "r1", name := "R1" } ]
    pageCallFails := fun _ => true }

/-- Whether a Notion call is a Features-relation rewrite. -/
def isUpdateRelations : NCall → Bool
  | .updateRelations _ _ => true
  | _ => false

/-- The `featurePageIds` list the reconciler computes for a release: the
mapped target page ids of its synced features, unknown pages dropped. -/
def pageIdsFor (fbr : List (String × List Feature)) (st : RunState) (r : Release) :
    List String :=
  ((((mapGet fbr r.id).getD []).map (fun f => mapGet st.featurePageMap f.id)).filterMap id).filter
    (fun s => s ≠ "")

/-- The relation-update call the reconciler issues for a release, if any:
one full-replace update exactly when the release's page id is known and
the mapped feature-page-id list is non-empty. -/
def relationCallOf (fbr : List (String × List Feature)) (st : RunState) (r : Release) :
    Option NCall :=
  match mapGet st.releasePageMap r.id with
  | some pid =>
      if pid ≠ "" then
        if pageIdsFor fbr st r ≠ [] then
          some (.updateRelations pid (pageIdsFor fbr st r))
        else none
      else none
  | none => none

/-- The run state of a successful run (defaulting to an untouched store on
a fatal error), for instantiating run-level theorems on concrete inputs. -/
def runSyncD (env : SyncEnv) (store0 : Store) : RunState :=
  match runSync env store0 with
  | .ok st => st
  | .error _ => { store := store0 }

/-- One release with one successfully synced assigned feature. -/
def envOneFeature : SyncEnv :=
  { releasesResult := .ok [ { id := "r1", name := "R1" } ]
    assignmentsResult := fun _ => .ok [some "f1"]
    featureDetailResult := fun fid =>
      if fid = "f1" then .ok (some { id := "f1", name := "F1" }) else .ok none }

/-- One release with one assigned feature whose detail fetch returns no
data, so the feature is skipped and never mapped to a page. -/
def envAssignedButUnmapped : SyncEnv :=
  { releasesResult := .ok [ { id := "r1", name := "R1" } ]
    assignmentsResult := fun _ => .ok [some "f1"]
    featureDetailResult := fun _ => .ok none }


/-- A run whose target features-database index query fails. -/
def envIndexFail : SyncEnv :=
  { queryFeaturesDbOk := false }

/-- A run whose per-item source fetches all fail. -/
def envPerItemFailures : SyncEnv :=
  { releasesResult := .ok [ { id := "r1", name := "R1" } ]
    assignmentsResult := fun _ => .error "boom"
    featureDetailResult := fun _ => .error "boom" }



/-- The release page a create call materialises. -/
def createdReleasePage (r : Release) : ReleasePage :=
  applyReleasePatch { } (removeUndefinedProperties (mapReleaseToNotion r))

/-- The feature page a create call materialises. -/
def createdFeaturePage (f : Feature) (relJs : JsVal) : FeaturePage :=
  applyFeaturePatch { } (removeUndefinedProperties (mapFeatureToNotion f (jsToOpt relJs)))

/-- The release pages a fresh run creates, with their minted ids. -/
def createdPagesR : List Release → Nat → List (String × ReleasePage)
  | [], _ => []
  | r :: rs, n => (mkPageId n, createdReleasePage r) :: createdPagesR rs (n + 1)

/-- The release page map a fresh run builds. -/
def pageMapOfR : List Release → Nat → List (String × String)
  | [], _ => []
  | r :: rs, n => (r.id, mkPageId n) :: pageMapOfR rs (n + 1)

/-- The feature pages a fresh run creates, given the release page map in
force during the feature loop. -/
def createdPagesF : List Feature → Nat → List (String × String) →
    List (String × FeaturePage)
  | [], _, _ => []
  | f :: fs, n, rpm => (mkPageId n, createdFeaturePage f (relJsOf rpm f)) ::
      createdPagesF fs (n + 1) rpm

/-- The feature page map a fresh run builds. -/
def pageMapOfF : List Feature → Nat → List (String × String)
  | [], _ => []
  | f :: fs, n => (f.id, mkPageId n) :: pageMapOfF fs (n + 1)

/-- The part of a stored release-page entry that a later run can observe:
its page id, its comparison snapshot, and its stored external id. -/
def relObs (q : String × ReleasePage) :
    String × List (String × JsVal) × Option String :=
  (q.1, releaseSnapshot q.2, readFirst q.2.pbId)

/-- Everything the relation-reconciler loop leaves untouched: the
observable release pages, the feature pages, the counters and the four
id maps. -/
def reconObs (st : RunState) :
    List (String × List (String × JsVal) × Option String) ×
      List (String × FeaturePage) × RunStats × List (String × String) ×
      List (String × String) × List (String × String) × List (String × String) :=
  (st.store.releases.map relObs, st.store.features, st.stats, st.releasePageMap,
   st.idMapReleases, st.idMapFeatures, st.featurePageMap)

/-- The stored release page a create call materialises, field by field. -/
def createdReleasePageX (r : Release) : ReleasePage :=
  { name := r.name
    pbId := [r.id]
    state := jsOrNull r.state
    releaseGroup :=
      match jsOrNull r.releaseGroup with
      | some g => [g]
      | none => [] }

/-- The stored feature page a create call materialises, field by field. -/
def createdFeaturePageX (f : Feature) (relJs : JsVal) : FeaturePage :=
  { name := f.name
    pbId := [f.id]
    status := jsOrNull f.status
    health := jsOrNull (some f.health)
    productManager :=
      match jsOrNull f.productManager with
      | some s => [s]
      | none => []
    release :=
      match relJs with
      | .str i => if i = "" then [] else [i]
      | _ => []
    productboardLink := jsOrNull f.productboardLink }

/-- One release whose raw state is the empty string: the create payload
drops the falsy state, so the stored page keeps no state while the fresh
comparison value is the empty string — every later run counts the release
as updated. -/
def envStateEmpty : SyncEnv :=
  { releasesResult := .ok [ { id := "r1", name := "R1", state := some "" } ] }


/-! ## Basic lemmas -/

theorem splitOnP_headD (p : Char → Bool) (l : List Char) :
    (List.splitOnP p l).headD [] = l.takeWhile (fun c => !p c) := by
  induction l with
  | nil => simp [List.splitOnP_nil]
  | cons x xs ih =>
      rw [List.splitOnP_cons]
      by_cases h : p x
      · simp [h, List.takeWhile_cons]
      · have hne : xs.splitOnP p ≠ [] := List.splitOnP_ne_nil p xs
        cases hxs : xs.splitOnP p with
        | nil => exact absurd hxs hne
        | cons a as =>
            rw [hxs] at ih
            simp [h, List.takeWhile_cons, hxs, ← ih]

theorem split_headD_eq_takeWhile (s : String) :
    (s.split (fun c => c = 'T')).headD "" = dateBeforeT s := by
  rw [String.split_of_valid]
  have hne : List.splitOnP (fun c => c = 'T') s.data ≠ [] :=
    List.splitOnP_ne_nil _ _
  cases hl : List.splitOnP (fun c => c = 'T') s.data with
  | nil => exact absurd hl hne
  | cons a as =>
      have h1 := splitOnP_headD (fun c => c = 'T') s.data
      rw [hl] at h1
      simp only [List.map_cons, List.headD_cons] at h1 ⊢
      rw [dateBeforeT, h1]
      have hpred : (fun c => !decide (c = 'T')) = (fun c : Char => decide (c ≠ 'T')) := by
        funext c
        simp [decide_not]
      rw [hpred]

/-- C7 (amended form): for every non-empty input string, `formatDate`
yields the prefix before the first `'T'`; for `null`, missing or `""`
input it yields `null`. -/
theorem formatDate_before_first_T (s : String) (h : s ≠ "") :
    formatDate (some s) = some (dateBeforeT s) ∧ formatDate none = none ∧
      formatDate (some "") = none := by
  refine ⟨?_, rfl, rfl⟩
  simp only [formatDate]
  rw [if_neg h, split_headD_eq_takeWhile]

/-- C7 counterexample: on the empty string (a string input), `formatDate`
returns `null`, not the prefix of the input before its first `'T'`
(which is `""`). -/
theorem formatDate_empty_cex :
    formatDate (some "") = none ∧ dateBeforeT "" = "" ∧
      formatDate (some "") ≠ some (dateBeforeT "") := by
  refine ⟨rfl, rfl, ?_⟩
  decide

/-- C7 witness: the spec's example input. -/
theorem formatDate_witness :
    formatDate (some "2025-05-05T00:00:00Z") = some "2025-05-05" := by
  have h := (formatDate_before_first_T "2025-05-05T00:00:00Z" (by decide)).1
  rw [h]
  decide

/-- C6: `normalizeHealth` lowercases every truthy input and maps
`null`, `""` and missing input to the literal `"unknown"`; in particular
`"On-Track"` becomes `"on-track"`. -/
theorem normalizeHealth_correct :
    (∀ s : String, s ≠ "" → normalizeHealth (some s) = jsToLowerCase s) ∧
    normalizeHealth none = "unknown" ∧ normalizeHealth (some "") = "unknown" ∧
    normalizeHealth (some "On-Track") = "on-track" := by
  refine ⟨fun s hs => by simp [normalizeHealth, hs], rfl, rfl, ?_⟩
  decide

/-- C6 witness: instantiating the universally quantified clause. -/
theorem normalizeHealth_witness :
    normalizeHealth (some "HEALTHY") = jsToLowerCase "HEALTHY" :=
  normalizeHealth_correct.1 "HEALTHY" (by decide)

/-- C3: `detectChanges` returns `null` exactly when every field of the
new snapshot agrees with the old one up to string coercion with
null/undefined as the canonical empty marker; otherwise the returned
change set holds exactly the differing field names with their old and new
values. -/
theorem detectChanges_correct (oldData newData : List (String × JsVal)) :
    (detectChanges oldData newData = none ↔
      ∀ p ∈ newData, normJs (jsGet oldData p.1) = normJs p.2) ∧
    (∀ cs, detectChanges oldData newData = some cs →
      ∀ k ov nv, ((k, ov, nv) ∈ cs ↔
        (k, nv) ∈ newData ∧ ov = jsGet oldData k ∧ normJs ov ≠ normJs nv)) := by
  constructor
  · unfold detectChanges
    cases hf : (newData.filter fun p => normJs (jsGet oldData p.1) ≠ normJs p.2).map
        (fun p => (p.1, jsGet oldData p.1, p.2)) with
    | nil =>
        simp only [List.map_eq_nil_iff, List.filter_eq_nil_iff] at hf
        simpa using hf
    | cons c cs =>
        simp only [List.map_eq_cons_iff] at hf
        obtain ⟨p, ps, hps, -, -⟩ := hf
        constructor
        · intro h
          exact absurd h (by simp)
        · intro h
          have hp : p ∈ newData.filter fun p => normJs (jsGet oldData p.1) ≠ normJs p.2 := by
            rw [hps]
            exact List.mem_cons_self _ _
          rw [List.mem_filter] at hp
          have := h p hp.1
          simp [this] at hp
  · intro cs hcs k ov nv
    have hval : cs = (newData.filter fun p => normJs (jsGet oldData p.1) ≠ normJs p.2).map
        (fun p => (p.1, jsGet oldData p.1, p.2)) := by
      unfold detectChanges at hcs
      cases hf : (newData.filter fun p => normJs (jsGet oldData p.1) ≠ normJs p.2).map
          (fun p => (p.1, jsGet oldData p.1, p.2)) with
      | nil => rw [hf] at hcs; exact absurd hcs (by simp)
      | cons c cs' => rw [hf] at hcs; simpa using hcs.symm
    subst hval
    constructor
    · intro hmem
      obtain ⟨p, hp, hfp⟩ := List.mem_map.mp hmem
      rw [List.mem_filter] at hp
      simp only [Prod.mk.injEq] at hfp
      obtain ⟨h1, h2, h3⟩ := hfp
      have hpe : p = (k, nv) := Prod.ext h1 h3
      have hne : normJs (jsGet oldData p.1) ≠ normJs p.2 := by simpa using hp.2
      refine ⟨hpe ▸ hp.1, ?_, ?_⟩
      · rw [← h2, h1]
      · rw [h2, h3] at hne
        exact hne
    · rintro ⟨hmem, hov, hne⟩
      refine List.mem_map.mpr ⟨(k, nv), List.mem_filter.mpr ⟨hmem, ?_⟩, by simp [hov]⟩
      simpa [← hov] using hne

theorem mapGet_rU_cons (k' k : String) (x : Option NProp) (rest : RawPayload) :
    mapGet (removeUndefinedProperties ((k', x) :: rest)) k =
      if k' = k then
        match x with
        | some v => some v
        | none => mapGet (removeUndefinedProperties rest) k
      else mapGet (removeUndefinedProperties rest) k := by
  cases x <;> by_cases h : k' = k <;>
    simp [removeUndefinedProperties, mapGet, List.find?, h]

theorem mem_rU {e : String × NProp} {l : RawPayload}
    (h : e ∈ removeUndefinedProperties l) : (e.1, some e.2) ∈ l := by
  induction l with
  | nil => simpa [removeUndefinedProperties] using h
  | cons a rest ih =>
      obtain ⟨ak, av⟩ := a
      cases av with
      | none =>
          exact List.mem_cons_of_mem _
            (ih (by simpa [removeUndefinedProperties, List.filterMap_cons] using h))
      | some v =>
          simp only [removeUndefinedProperties, List.filterMap_cons] at h
          rw [List.mem_cons] at h
          rcases h with h | h
          · subst h
            exact List.mem_cons_self _ _
          · exact List.mem_cons_of_mem _
              (ih (by simpa [removeUndefinedProperties] using h))

theorem applyFeaturePatch_append (page : FeaturePage) (l1 l2 : Payload) :
    applyFeaturePatch page (l1 ++ l2) = applyFeaturePatch (applyFeaturePatch page l1) l2 :=
  List.foldl_append ..

theorem applyFeatureProp_status_of_ne (page : FeaturePage) (e : String × NProp)
    (h : e.1 ≠ "Status") : (applyFeatureProp page e).status = page.status := by
  obtain ⟨k, v⟩ := e
  unfold applyFeatureProp
  split <;> simp_all

theorem applyFeatureProp_pm_of_ne (page : FeaturePage) (e : String × NProp)
    (h : e.1 ≠ "Product Manager") :
    (applyFeatureProp page e).productManager = page.productManager := by
  obtain ⟨k, v⟩ := e
  unfold applyFeatureProp
  split <;> simp_all

theorem applyFeatureProp_release_of_ne (page : FeaturePage) (e : String × NProp)
    (h : e.1 ≠ "Release") : (applyFeatureProp page e).release = page.release := by
  obtain ⟨k, v⟩ := e
  unfold applyFeatureProp
  split <;> simp_all

theorem applyFeatureProp_link_of_ne (page : FeaturePage) (e : String × NProp)
    (h : e.1 ≠ "Productboard Link") :
    (applyFeatureProp page e).productboardLink = page.productboardLink := by
  obtain ⟨k, v⟩ := e
  unfold applyFeatureProp
  split <;> simp_all

theorem applyFeaturePatch_proj_stable {γ : Type} (proj : FeaturePage → γ) (k : String)
    (hstep : ∀ page e, e.1 ≠ k → proj (applyFeatureProp page e) = proj page)
    (patch : Payload) (hkeys : ∀ e ∈ patch, e.1 ≠ k) (page : FeaturePage) :
    proj (applyFeaturePatch page patch) = proj page := by
  induction patch generalizing page with
  | nil => rfl
  | cons e es ih =>
      simp only [applyFeaturePatch, List.foldl_cons] at ih ⊢
      rw [ih (fun e he => hkeys e (List.mem_cons_of_mem _ he)),
        hstep page e (hkeys e (List.mem_cons_self _ _))]

theorem applyFeaturePatch_rU_cons (page : FeaturePage) (k : String) (x : Option NProp)
    (rest : RawPayload) :
    applyFeaturePatch page (removeUndefinedProperties ((k, x) :: rest)) =
      (match x with
        | some v => applyFeaturePatch (applyFeatureProp page (k, v))
            (removeUndefinedProperties rest)
        | none => applyFeaturePatch page (removeUndefinedProperties rest)) := by
  cases x <;> rfl

theorem applyFeatureProp_pm_entry (page : FeaturePage) (xs : List String) :
    applyFeatureProp page ("Product Manager", .richText xs) =
      { page with productManager := xs } := rfl

/-- The Product Manager list every feature payload carries (non-empty
exactly when the source value is truthy). -/
theorem applyFeature_payload_pm (f : Feature) (rpid : Option String) (page : FeaturePage) :
    (applyFeaturePatch page
        (removeUndefinedProperties (mapFeatureToNotion f rpid))).productManager =
      (match f.productManager with
        | some s => if s ≠ "" then [s] else []
        | none => []) := by
  have h0 : removeUndefinedProperties [] = [] := rfl
  have h1 : ∀ page : FeaturePage, applyFeaturePatch page [] = page := fun _ => rfl
  rcases hp : f.productManager with _ | s
  · simp only [mapFeatureToNotion, hp, applyFeaturePatch_rU_cons, h0, h1]
    repeat' split
    all_goals
      simp +decide [applyFeatureProp_pm_of_ne, applyFeatureProp_pm_entry]
  · by_cases hs : s = "" <;>
      simp only [mapFeatureToNotion, hp, hs, applyFeaturePatch_rU_cons, h0, h1] <;>
      (repeat' split) <;>
      simp +decide [applyFeatureProp_pm_of_ne, applyFeatureProp_pm_entry, hs]

/-- C8: every feature create/update payload contains the
`'Product Manager'` property: the source value when non-null, and the
empty rich-text list when null — which clears any stored value — while
the other optional fields (Status, Health Status, Release, Productboard
Link) are omitted when absent, leaving the stored value untouched. -/
theorem feature_pm_always_sent (f : Feature) (rpid : Option String)
    (hpm : f.productManager ≠ some "") :
    (mapGet (removeUndefinedProperties (mapFeatureToNotion f rpid)) "Product Manager" =
      some (.richText (match f.productManager with
        | some s => [s]
        | none => []))) ∧
    (∀ page : FeaturePage,
      (applyFeaturePatch page
          (removeUndefinedProperties (mapFeatureToNotion f rpid))).productManager =
        (match f.productManager with
          | some s => [s]
          | none => [])) ∧
    (f.productManager = none → ∀ page : FeaturePage,
      readFirst (applyFeaturePatch page
          (removeUndefinedProperties (mapFeatureToNotion f rpid))).productManager = none) ∧
    (f.status = none →
      mapGet (removeUndefinedProperties (mapFeatureToNotion f rpid)) "Status" = none ∧
      ∀ page : FeaturePage,
        (applyFeaturePatch page
            (removeUndefinedProperties (mapFeatureToNotion f rpid))).status = page.status) ∧
    (rpid = none →
      mapGet (removeUndefinedProperties (mapFeatureToNotion f rpid)) "Release" = none ∧
      ∀ page : FeaturePage,
        (applyFeaturePatch page
            (removeUndefinedProperties (mapFeatureToNotion f rpid))).release = page.release) ∧
    (f.productboardLink = none →
      mapGet (removeUndefinedProperties (mapFeatureToNotion f rpid)) "Productboard Link" = none ∧
      ∀ page : FeaturePage,
        (applyFeaturePatch page
            (removeUndefinedProperties (mapFeatureToNotion f rpid))).productboardLink =
          page.productboardLink) := by
  have hlist : (match f.productManager with
      | some s => if s ≠ "" then [s] else []
      | none => ([] : List String)) =
      (match f.productManager with
        | some s => [s]
        | none => []) := by
    rcases hp : f.productManager with _ | s
    · rfl
    · have hs : s ≠ "" := by
        intro he
        exact hpm (by rw [hp, he])
      simp [hs]
  have hnil : ∀ k, mapGet (removeUndefinedProperties []) k = (none : Option NProp) :=
    fun _ => rfl
  refine ⟨?_, ?_, ?_, ?_, ?_, ?_⟩
  · rcases hp : f.productManager with _ | s
    · simp [mapFeatureToNotion, mapGet_rU_cons, hp]
    · have hs : s ≠ "" := by
        intro he
        exact hpm (by rw [hp, he])
      simp [mapFeatureToNotion, mapGet_rU_cons, hp, hs]
  · intro page
    rw [applyFeature_payload_pm, hlist]
  · intro hnone page
    rw [applyFeature_payload_pm]
    simp [hnone, readFirst]
  · intro hnone
    constructor
    · simp only [mapFeatureToNotion]
      simp [mapGet_rU_cons, hnone, hnil]
    · intro page
      refine applyFeaturePatch_proj_stable (fun p => p.status) "Status"
        (fun page e he => applyFeatureProp_status_of_ne page e he) _ ?_ page
      intro e he
      have h := mem_rU he
      simp only [mapFeatureToNotion, hnone, List.mem_cons, List.not_mem_nil, or_false] at h
      rcases h with h | h | h | h | h | h | h <;>
        first
          | (have h1 := congrArg Prod.fst h
             simp at h1
             simp [h1]
             done)
          | (have h2 := congrArg Prod.snd h
             simp at h2)
  · intro hnone
    constructor
    · simp only [mapFeatureToNotion]
      simp [mapGet_rU_cons, hnone, hnil]
    · intro page
      refine applyFeaturePatch_proj_stable (fun p => p.release) "Release"
        (fun page e he => applyFeatureProp_release_of_ne page e he) _ ?_ page
      intro e he
      have h := mem_rU he
      simp only [mapFeatureToNotion, hnone, List.mem_cons, List.not_mem_nil, or_false] at h
      rcases h with h | h | h | h | h | h | h <;>
        first
          | (have h1 := congrArg Prod.fst h
             simp at h1
             simp [h1]
             done)
          | (have h2 := congrArg Prod.snd h
             simp at h2)
  · intro hnone
    constructor
    · simp only [mapFeatureToNotion]
      simp [mapGet_rU_cons, hnone, hnil]
    · intro page
      refine applyFeaturePatch_proj_stable (fun p => p.productboardLink) "Productboard Link"
        (fun page e he => applyFeatureProp_link_of_ne page e he) _ ?_ page
      intro e he
      have h := mem_rU he
      simp only [mapFeatureToNotion, hnone, List.mem_cons, List.not_mem_nil, or_false] at h
      rcases h with h | h | h | h | h | h | h <;>
        first
          | (have h1 := congrArg Prod.fst h
             simp at h1
             simp [h1]
             done)
          | (have h2 := congrArg Prod.snd h
             simp at h2)

/-- C8 witness: a concrete feature with a null product manager. -/
theorem feature_pm_always_sent_witness :
    mapGet (removeUndefinedProperties
        (mapFeatureToNotion { id := "f1", name := "F1" } none)) "Product Manager" =
      some (.richText []) :=
  (feature_pm_always_sent { id := "f1", name := "F1" } none (by decide)).1



theorem releaseUntrackedFields_applyReleaseProp (p : ReleasePage) (e : String × NProp) :
    releaseUntrackedFields (applyReleaseProp p e) = releaseUntrackedFields p := by
  obtain ⟨k, v⟩ := e
  unfold applyReleaseProp
  split <;> rfl

theorem releaseUntrackedFields_applyReleasePatch (p : ReleasePage) (patch : Payload) :
    releaseUntrackedFields (applyReleasePatch p patch) = releaseUntrackedFields p := by
  induction patch generalizing p with
  | nil => rfl
  | cons e es ih =>
      simp only [applyReleasePatch, List.foldl_cons] at ih ⊢
      rw [ih, releaseUntrackedFields_applyReleaseProp]

/-- C3 witness: a concrete pair of snapshots with exactly one differing
field. -/
theorem detectChanges_witness :
    ("a", JsVal.str "x", JsVal.str "y") ∈ [("a", JsVal.str "x", JsVal.str "y")] :=
  ((detectChanges_correct [("a", .str "x")] [("a", .str "y"), ("b", .null)]).2
    [("a", .str "x", .str "y")] (by decide) "a" (.str "x") (.str "y")).mpr
    (by refine ⟨by decide, by decide, by decide⟩)

/-! ## Store lemmas for the frame property of release pages -/

theorem mapGet_cons {β : Type} (ak k : String) (v : β) (tl : List (String × β)) :
    mapGet ((ak, v) :: tl) k = if ak = k then some v else mapGet tl k := by
  by_cases h : ak = k <;> simp [mapGet, List.find?, h]

theorem mapGet_append {β : Type} (l l2 : List (String × β)) (k : String) :
    mapGet (l ++ l2) k = (mapGet l k).or (mapGet l2 k) := by
  simp only [mapGet, List.find?_append]
  cases l.find? (fun p => p.1 = k) <;> simp

theorem mapGet_store_update {β : Type} (g : β → β) (l : List (String × β)) (pid0 k : String) :
    mapGet (l.map fun q => if q.1 = pid0 then (q.1, g q.2) else q) k =
      (mapGet l k).map (fun v => if k = pid0 then g v else v) := by
  induction l with
  | nil => rfl
  | cons a tl ih =>
      obtain ⟨ak, av⟩ := a
      simp only [List.map_cons]
      by_cases hp : ak = pid0
      · rw [if_pos (by simpa using hp)]
        rw [mapGet_cons, mapGet_cons]
        by_cases hk : ak = k
        · subst hk
          rw [if_pos rfl, if_pos rfl]
          simp [hp]
        · rw [if_neg hk, if_neg hk, ih]
      · rw [if_neg (by simpa using hp)]
        rw [mapGet_cons, mapGet_cons]
        by_cases hk : ak = k
        · subst hk
          rw [if_pos rfl, if_pos rfl]
          simp [hp]
        · rw [if_neg hk, if_neg hk, ih]

theorem mapGet_updateReleaseInStore (s : Store) (pid0 k : String) (patch : Payload) :
    mapGet (updateReleaseInStore s pid0 patch).releases k =
      (mapGet s.releases k).map
        (fun v => if k = pid0 then applyReleasePatch v patch else v) :=
  mapGet_store_update (applyReleasePatch · patch) s.releases pid0 k

theorem mapGet_updateFeatureInStore (s : Store) (pid0 k : String) (patch : Payload) :
    mapGet (updateFeatureInStore s pid0 patch).features k =
      (mapGet s.features k).map
        (fun v => if k = pid0 then applyFeaturePatch v patch else v) :=
  mapGet_store_update (applyFeaturePatch · patch) s.features pid0 k



theorem releasePagesPreserved_of_eq {s s' : Store} (h : s'.releases = s.releases) :
    ReleasePagesPreserved s s' := fun pid page hm =>
  ⟨page, by rw [h]; exact hm, rfl⟩

theorem releasePagesPreserved_trans {a b c : Store} (h1 : ReleasePagesPreserved a b)
    (h2 : ReleasePagesPreserved b c) : ReleasePagesPreserved a c := by
  intro pid page hm
  obtain ⟨p1, hp1, he1⟩ := h1 pid page hm
  obtain ⟨p2, hp2, he2⟩ := h2 pid p1 hp1
  exact ⟨p2, hp2, he2.trans he1⟩

theorem releasePagesPreserved_of_append {s s' : Store} (l : List (String × ReleasePage))
    (h : s'.releases = s.releases ++ l) : ReleasePagesPreserved s s' := by
  intro pid page hm
  refine ⟨page, ?_, rfl⟩
  rw [h, mapGet_append, hm]
  rfl

theorem releasePagesPreserved_update (s : Store) (pid : String) (patch : Payload) :
    ReleasePagesPreserved s (updateReleaseInStore s pid patch) := by
  intro pid' page hm
  refine ⟨if pid' = pid then applyReleasePatch page patch else page, ?_, ?_⟩
  · rw [mapGet_updateReleaseInStore, hm]
    rfl
  · by_cases hp : pid' = pid <;> simp [hp, releaseUntrackedFields_applyReleasePatch]

theorem releasePagesPreserved_syncReleaseStep (env : SyncEnv) (st : RunState) (r : Release) :
    ReleasePagesPreserved st.store (syncReleaseStep env st r).store := by
  simp only [syncReleaseStep, recordCall]
  repeat' split
  all_goals try dsimp only
  all_goals
    first
      | exact releasePagesPreserved_of_eq rfl
      | exact releasePagesPreserved_update _ _ _
      | exact releasePagesPreserved_of_append _ rfl

theorem releasePagesPreserved_syncFeatureStep (env : SyncEnv) (st : RunState) (f : Feature) :
    ReleasePagesPreserved st.store (syncFeatureStep env st f).store := by
  simp only [syncFeatureStep, recordCall, updateFeatureInStore]
  repeat' split
  all_goals try dsimp only
  all_goals
    first
      | exact releasePagesPreserved_of_eq rfl
      | exact releasePagesPreserved_of_append _ rfl

theorem releasePagesPreserved_reconcileStep (env : SyncEnv)
    (fbr : List (String × List Feature)) (st : RunState) (r : Release) :
    ReleasePagesPreserved st.store (reconcileStep env fbr st r).store := by
  simp only [reconcileStep, recordCall]
  repeat' split
  all_goals try dsimp only
  all_goals
    first
      | exact releasePagesPreserved_of_eq rfl
      | exact releasePagesPreserved_update _ _ _

theorem releasePagesPreserved_foldl {α : Type} (f : RunState → α → RunState)
    (hf : ∀ st a, ReleasePagesPreserved st.store (f st a).store) (l : List α)
    (st : RunState) : ReleasePagesPreserved st.store (l.foldl f st).store := by
  induction l generalizing st with
  | nil => exact releasePagesPreserved_of_eq rfl
  | cons a tl ih =>
      exact releasePagesPreserved_trans (hf st a) (ih (f st a))

/-- Destruct a successful run into its three loop stages. -/
theorem runSync_ok_elim {env : SyncEnv} {store0 : Store} {st : RunState}
    (h : runSync env store0 = .ok st) :
    st = (sourceReleases env).foldl (reconcileStep env (featuresByRelease env))
      ((sourceFeatures env).foldl (syncFeatureStep env)
        ((sourceReleases env).foldl (syncReleaseStep env)
          { store := store0
            idMapReleases := idxReleases store0
            idMapFeatures := idxFeatures store0 })) := by
  unfold runSync at h
  split at h
  · exact absurd h (by simp)
  split at h
  · exact absurd h (by simp)
  split at h
  · exact absurd h (by simp)
  split at h
  · exact absurd h (by simp)
  · simpa using h.symm

/-- C9: every release payload carries only the Name, Productboard ID,
State and Release Group properties, and a run never changes an existing
release page's Start Date, End Date, Product Manager or Engineering Lead. -/
theorem release_sync_frame (env : SyncEnv) (store0 : Store) (st : RunState)
    (h : runSync env store0 = .ok st) :
    (∀ r : Release, ∀ e ∈ removeUndefinedProperties (mapReleaseToNotion r),
      e.1 = "Name" ∨ e.1 = "Productboard ID" ∨ e.1 = "State" ∨ e.1 = "Release Group") ∧
    (∀ pid page, mapGet store0.releases pid = some page →
      ∃ page', mapGet st.store.releases pid = some page' ∧
        page'.startDate = page.startDate ∧ page'.endDate = page.endDate ∧
        page'.productManager = page.productManager ∧
        page'.engineeringLead = page.engineeringLead) := by
  constructor
  · intro r e he
    have hm := mem_rU he
    simp only [mapReleaseToNotion, List.mem_cons, List.not_mem_nil, or_false] at hm
    rcases hm with hm | hm | hm | hm <;>
      (have h1 := congrArg Prod.fst hm
       simp at h1
       simp [h1])
  · intro pid page hm
    have hpres : ReleasePagesPreserved store0 st.store := by
      rw [runSync_ok_elim h]
      exact releasePagesPreserved_trans (releasePagesPreserved_trans
        (releasePagesPreserved_foldl _ (releasePagesPreserved_syncReleaseStep env)
          (sourceReleases env)
          { store := store0
            idMapReleases := idxReleases store0
            idMapFeatures := idxFeatures store0 })
        (releasePagesPreserved_foldl _ (releasePagesPreserved_syncFeatureStep env)
          (sourceFeatures env)
          ((sourceReleases env).foldl (syncReleaseStep env)
            { store := store0
              idMapReleases := idxReleases store0
              idMapFeatures := idxFeatures store0 })))
        (releasePagesPreserved_foldl _ (releasePagesPreserved_reconcileStep env _)
          (sourceReleases env)
          ((sourceFeatures env).foldl (syncFeatureStep env)
            ((sourceReleases env).foldl (syncReleaseStep env)
              { store := store0
                idMapReleases := idxReleases store0
                idMapFeatures := idxFeatures store0 })))
    obtain ⟨page', hp, he⟩ := hpres pid page hm
    simp only [releaseUntrackedFields, Prod.mk.injEq] at he
    exact ⟨page', hp, he.1, he.2.1, he.2.2.1, he.2.2.2⟩



/-- C9 witness: a run over a store holding a dated release page leaves
the date in place. -/
theorem release_sync_frame_witness :
    ∃ st, runSync { } c9Store = .ok st ∧
      ∃ page', mapGet st.store.releases "p1" = some page' ∧
        page'.startDate = some "2025-05-05" := by
  obtain ⟨st, hst⟩ : ∃ st, runSync ({ } : SyncEnv) c9Store = .ok st := ⟨_, rfl⟩
  obtain ⟨-, hframe⟩ := release_sync_frame _ _ _ hst
  obtain ⟨page', hp, hsd, -, -, -⟩ := hframe "p1"
    { name := "R1", pbId := ["r1"], startDate := some "2025-05-05" } (by rfl)
  exact ⟨st, hst, page', hp, by rw [hsd]⟩

/-! ## Accounting of the final summary (C2) -/









theorem relAccounted_syncReleaseStep (env : SyncEnv) (st : RunState) (r : Release) :
    relAccounted (syncReleaseStep env st r) = relAccounted st + 1 := by
  simp only [syncReleaseStep, recordCall]
  repeat' split
  all_goals simp [relAccounted, isRelErr, List.filter_append]
  all_goals omega

theorem relAccounted_syncFeatureStep (env : SyncEnv) (st : RunState) (f : Feature) :
    relAccounted (syncFeatureStep env st f) = relAccounted st := by
  simp only [syncFeatureStep, recordCall]
  repeat' split
  all_goals simp [relAccounted, isRelErr, List.filter_append]

theorem relAccounted_reconcileStep (env : SyncEnv) (fbr : List (String × List Feature))
    (st : RunState) (r : Release) :
    relAccounted (reconcileStep env fbr st r) = relAccounted st := by
  simp only [reconcileStep, recordCall]
  repeat' split
  all_goals simp [relAccounted, isRelErr, List.filter_append]

theorem featAccounted_syncReleaseStep (env : SyncEnv) (st : RunState) (r : Release) :
    featAccounted (syncReleaseStep env st r) = featAccounted st := by
  simp only [syncReleaseStep, recordCall]
  repeat' split
  all_goals simp [featAccounted, isFeatErr, List.filter_append]

theorem featAccounted_syncFeatureStep (env : SyncEnv) (st : RunState) (f : Feature) :
    featAccounted (syncFeatureStep env st f) = featAccounted st + 1 := by
  simp only [syncFeatureStep, recordCall]
  repeat' split
  all_goals simp [featAccounted, isFeatErr, List.filter_append]
  all_goals omega

theorem featAccounted_reconcileStep (env : SyncEnv) (fbr : List (String × List Feature))
    (st : RunState) (r : Release) :
    featAccounted (reconcileStep env fbr st r) = featAccounted st := by
  simp only [reconcileStep, recordCall]
  repeat' split
  all_goals simp [featAccounted, isFeatErr, List.filter_append]

theorem foldl_measure_succ {α : Type} (f : RunState → α → RunState) (m : RunState → Nat)
    (hf : ∀ st a, m (f st a) = m st + 1) (l : List α) (st : RunState) :
    m (l.foldl f st) = m st + l.length := by
  induction l generalizing st with
  | nil => rfl
  | cons a tl ih =>
      rw [List.foldl_cons, ih (f st a), hf st a, List.length_cons]
      omega

theorem foldl_measure_const {α γ : Type} (f : RunState → α → RunState) (m : RunState → γ)
    (hf : ∀ st a, m (f st a) = m st) (l : List α) (st : RunState) :
    m (l.foldl f st) = m st := by
  induction l generalizing st with
  | nil => rfl
  | cons a tl ih => rw [List.foldl_cons, ih (f st a), hf st a]

/-- C2 (amended form): in every run, each release and each synced feature
is accounted for exactly once, by one of the three summary counters or by
an error-log line; a failed create/update shows up in the error log, not
in the summary counters. -/
theorem run_summary_accounting (env : SyncEnv) (store0 : Store) (st : RunState)
    (h : runSync env store0 = .ok st) :
    st.stats.releases.created + st.stats.releases.updated + st.stats.releases.unchanged +
      (st.errors.filter isRelErr).length = (sourceReleases env).length ∧
    st.stats.features.created + st.stats.features.updated + st.stats.features.unchanged +
      (st.errors.filter isFeatErr).length = (sourceFeatures env).length := by
  constructor
  · have hacc : relAccounted st = (sourceReleases env).length := by
      rw [runSync_ok_elim h]
      rw [foldl_measure_const (reconcileStep env (featuresByRelease env)) relAccounted
          (relAccounted_reconcileStep env (featuresByRelease env)) (sourceReleases env) _,
        foldl_measure_const (syncFeatureStep env) relAccounted
          (relAccounted_syncFeatureStep env) (sourceFeatures env) _,
        foldl_measure_succ (syncReleaseStep env) relAccounted
          (relAccounted_syncReleaseStep env) (sourceReleases env) _]
      simp [relAccounted]
    simpa [relAccounted] using hacc
  · have hacc : featAccounted st = (sourceFeatures env).length := by
      rw [runSync_ok_elim h]
      rw [foldl_measure_const (reconcileStep env (featuresByRelease env)) featAccounted
          (featAccounted_reconcileStep env (featuresByRelease env)) (sourceReleases env) _,
        foldl_measure_succ (syncFeatureStep env) featAccounted
          (featAccounted_syncFeatureStep env) (sourceFeatures env) _,
        foldl_measure_const (syncReleaseStep env) featAccounted
          (featAccounted_syncReleaseStep env) (sourceReleases env) _]
      simp [featAccounted]
    simpa [featAccounted] using hacc



/-- C2 counterexample: with one release whose create call fails, the
final summary counters sum to zero — the summary has no error counter and
the failed record is missing from the summary totals, though one release
was processed. -/
theorem stats_drop_failed_record_cex :
    ∃ st, runSync envFailingCreate { } = .ok st ∧
      st.stats.releases.created + st.stats.releases.updated +
        st.stats.releases.unchanged = 0 ∧
      st.errors = [.releaseCreateFailed "R1"] ∧
      (sourceReleases envFailingCreate).length = 1 := by
  refine ⟨_, rfl, ?_, ?_, ?_⟩ <;> rfl

/-- C2 witness: the amended accounting instantiated on the failing-create
run. -/
theorem run_summary_accounting_witness :
    ∃ st, runSync envFailingCreate { } = .ok st ∧
      st.stats.releases.created + st.stats.releases.updated + st.stats.releases.unchanged +
        (st.errors.filter isRelErr).length = 1 := by
  obtain ⟨st, hst⟩ : ∃ st, runSync envFailingCreate { } = .ok st := ⟨_, rfl⟩
  obtain ⟨h1, -⟩ := run_summary_accounting envFailingCreate _ st hst
  refine ⟨st, hst, by rw [h1]; rfl⟩

/-! ## The relation reconciler (C4, C10) -/

theorem mapGet_mapSet {β : Type} (m : List (String × β)) (x k : String) (v : β) :
    mapGet (mapSet m x v) k = if x = k then some v else mapGet m k := by
  unfold mapSet
  split
  case isTrue hpresent =>
    rw [mapGet_store_update (fun _ => v) m x k]
    by_cases hk : k = x
    · subst hk
      simp only [if_pos rfl]
      rcases hm : mapGet m k with _ | w
      · exfalso
        unfold mapGet at hm
        rcases hf : m.find? (fun p => p.1 = k) with _ | p
        · rw [hf] at hpresent
          simp at hpresent
        · rw [hf] at hm
          simp at hm
      · simp
    · have hxk : ¬ x = k := fun he => hk he.symm
      simp only [if_neg hk, if_neg hxk]
      cases mapGet m k <;> rfl
  case isFalse habsent =>
    rw [mapGet_append]
    by_cases hk : x = k
    · subst hk
      have hnone : mapGet m x = none := by
        unfold mapGet
        rcases hf : m.find? (fun p => p.1 = x) with _ | p
        · rw [hf]
          rfl
        · rw [hf] at habsent
          simp at habsent
      rw [hnone, if_pos rfl]
      simp [mapGet_cons]
    · rw [if_neg hk]
      have h2 : mapGet [(x, v)] k = none := by
        rw [mapGet_cons, if_neg hk]
        rfl
      rw [h2]
      cases mapGet m k <;> rfl

theorem mapGet_foldl_mapSet {β : Type} (V : String → β) (l : List String)
    (m0 : List (String × β)) (k : String) :
    mapGet (l.foldl (fun m x => mapSet m x (V x)) m0) k =
      if k ∈ l then some (V k) else mapGet m0 k := by
  induction l generalizing m0 with
  | nil => simp
  | cons x xs ih =>
      rw [List.foldl_cons, ih]
      by_cases hk : k ∈ xs
      · simp [hk]
      · by_cases hx : x = k
        · subst hx
          simp [hk, mapGet_mapSet]
        · have hkx : ¬ k = x := fun h => hx h.symm
          simp [hk, hx, hkx, mapGet_mapSet, List.mem_cons]

theorem mapGet_sourceRelFeatMap (env : SyncEnv) (r : Release)
    (hr : r ∈ sourceReleases env) :
    mapGet (sourceRelFeatMap env) r.id =
      some (fetchAssignments (env.assignmentsResult r.id)) := by
  unfold sourceRelFeatMap
  rw [show (sourceReleases env).foldl
      (fun m r => mapSet m r.id (fetchAssignments (env.assignmentsResult r.id))) [] =
      ((sourceReleases env).map Release.id).foldl
        (fun m x => mapSet m x (fetchAssignments (env.assignmentsResult x))) []
    from (List.foldl_map Release.id
      (fun m x => mapSet m x (fetchAssignments (env.assignmentsResult x)))
      (sourceReleases env) []).symm]
  rw [mapGet_foldl_mapSet]
  rw [if_pos (List.mem_map_of_mem Release.id hr)]

theorem mapGet_featuresByRelease (env : SyncEnv) (r : Release)
    (hr : r ∈ sourceReleases env) :
    mapGet (featuresByRelease env) r.id =
      some ((sourceFeatures env).filter
        (fun f => ((mapGet (sourceRelFeatMap env) r.id).getD []).contains f.id)) := by
  unfold featuresByRelease
  rw [show (sourceReleases env).foldl
      (fun m r => mapSet m r.id ((sourceFeatures env).filter
        (fun f => ((mapGet (sourceRelFeatMap env) r.id).getD []).contains f.id))) [] =
      ((sourceReleases env).map Release.id).foldl
        (fun m x => mapSet m x ((sourceFeatures env).filter
          (fun f => ((mapGet (sourceRelFeatMap env) x).getD []).contains f.id))) []
    from (List.foldl_map Release.id
      (fun m x => mapSet m x ((sourceFeatures env).filter
        (fun f => ((mapGet (sourceRelFeatMap env) x).getD []).contains f.id)))
      (sourceReleases env) []).symm]
  rw [mapGet_foldl_mapSet]
  rw [if_pos (List.mem_map_of_mem Release.id hr)]

theorem filter_calls_syncReleaseStep (env : SyncEnv) (st : RunState) (r : Release) :
    ((syncReleaseStep env st r).calls).filter isUpdateRelations =
      st.calls.filter isUpdateRelations := by
  simp only [syncReleaseStep, recordCall]
  repeat' split
  all_goals simp [List.filter_append, isUpdateRelations]

theorem filter_calls_syncFeatureStep (env : SyncEnv) (st : RunState) (f : Feature) :
    ((syncFeatureStep env st f).calls).filter isUpdateRelations =
      st.calls.filter isUpdateRelations := by
  simp only [syncFeatureStep, recordCall]
  repeat' split
  all_goals simp [List.filter_append, isUpdateRelations]

theorem releasePageMap_reconcileStep (env : SyncEnv) (fbr : List (String × List Feature))
    (st : RunState) (r : Release) :
    (reconcileStep env fbr st r).releasePageMap = st.releasePageMap := by
  simp only [reconcileStep, recordCall]
  repeat' split
  all_goals rfl

theorem featurePageMap_reconcileStep (env : SyncEnv) (fbr : List (String × List Feature))
    (st : RunState) (r : Release) :
    (reconcileStep env fbr st r).featurePageMap = st.featurePageMap := by
  simp only [reconcileStep, recordCall]
  repeat' split
  all_goals rfl

theorem relationCallOf_eq_of_maps {fbr : List (String × List Feature)} {st st' : RunState}
    (h1 : st'.releasePageMap = st.releasePageMap)
    (h2 : st'.featurePageMap = st.featurePageMap) (r : Release) :
    relationCallOf fbr st' r = relationCallOf fbr st r := by
  unfold relationCallOf pageIdsFor
  rw [h1, h2]

theorem filter_calls_reconcileStep (env : SyncEnv) (fbr : List (String × List Feature))
    (st : RunState) (r : Release) :
    ((reconcileStep env fbr st r).calls).filter isUpdateRelations =
      st.calls.filter isUpdateRelations ++ (relationCallOf fbr st r).toList := by
  simp only [reconcileStep, recordCall, relationCallOf, pageIdsFor]
  repeat' split
  all_goals simp [List.filter_append, isUpdateRelations]

theorem filter_calls_reconcile_loop (env : SyncEnv) (fbr : List (String × List Feature))
    (rs : List Release) (st : RunState) :
    ((rs.foldl (reconcileStep env fbr) st).calls).filter isUpdateRelations =
      st.calls.filter isUpdateRelations ++ rs.filterMap (relationCallOf fbr st) := by
  induction rs generalizing st with
  | nil => simp
  | cons r rs ih =>
      rw [List.foldl_cons, ih, filter_calls_reconcileStep]
      have hc : ∀ r' : Release,
          relationCallOf fbr (reconcileStep env fbr st r) r' = relationCallOf fbr st r' :=
        fun r' => relationCallOf_eq_of_maps
          (releasePageMap_reconcileStep env fbr st r)
          (featurePageMap_reconcileStep env fbr st r) r'
      rw [List.filterMap_congr (fun r' _ => hc r'), List.filterMap_cons]
      cases relationCallOf fbr st r <;> simp

/-- The complete list of Features-relation rewrites a run issues: exactly
one full-replace call per release whose page id is known and whose mapped
feature-page-id list is non-empty. -/
theorem runSync_relation_calls (env : SyncEnv) (store0 : Store) (st : RunState)
    (h : runSync env store0 = .ok st) :
    st.calls.filter isUpdateRelations =
      (sourceReleases env).filterMap (relationCallOf (featuresByRelease env) st) := by
  rw [runSync_ok_elim h]
  generalize hST2 : (sourceFeatures env).foldl (syncFeatureStep env)
      ((sourceReleases env).foldl (syncReleaseStep env)
        { store := store0
          idMapReleases := idxReleases store0
          idMapFeatures := idxFeatures store0 }) = ST2
  rw [filter_calls_reconcile_loop]
  have hcalls : ST2.calls.filter isUpdateRelations = [] := by
    rw [← hST2]
    rw [foldl_measure_const (syncFeatureStep env)
        (fun st => st.calls.filter isUpdateRelations)
        (filter_calls_syncFeatureStep env) (sourceFeatures env) _]
    rw [foldl_measure_const (syncReleaseStep env)
        (fun st => st.calls.filter isUpdateRelations)
        (filter_calls_syncReleaseStep env) (sourceReleases env) _]
    rfl
  have hmapsR : ((sourceReleases env).foldl
      (reconcileStep env (featuresByRelease env)) ST2).releasePageMap = ST2.releasePageMap :=
    foldl_measure_const _ (fun st => st.releasePageMap)
      (releasePageMap_reconcileStep env (featuresByRelease env)) (sourceReleases env) ST2
  have hmapsF : ((sourceReleases env).foldl
      (reconcileStep env (featuresByRelease env)) ST2).featurePageMap = ST2.featurePageMap :=
    foldl_measure_const _ (fun st => st.featurePageMap)
      (featurePageMap_reconcileStep env (featuresByRelease env)) (sourceReleases env) ST2
  rw [hcalls, List.nil_append]
  exact (List.filterMap_congr (fun r _ =>
    (relationCallOf_eq_of_maps hmapsR hmapsF r).symm)).symm ▸ rfl

/-- C4 (amended form): the full list of Features-relation rewrites a run
issues is exactly one full-replace update per release whose page id is
known and whose list of mapped assigned feature-page ids is non-empty,
each carrying exactly that list; a release whose mapped list is empty —
in particular one with no assigned features — gets no relation update. -/
theorem reconciler_single_full_replace (env : SyncEnv) (store0 : Store) (st : RunState)
    (h : runSync env store0 = .ok st) :
    (st.calls.filter isUpdateRelations =
      (sourceReleases env).filterMap (relationCallOf (featuresByRelease env) st)) ∧
    (∀ r : Release, pageIdsFor (featuresByRelease env) st r = [] →
      relationCallOf (featuresByRelease env) st r = none) ∧
    (∀ r ∈ sourceReleases env, (mapGet (sourceRelFeatMap env) r.id).getD [] = [] →
      pageIdsFor (featuresByRelease env) st r = []) := by
  refine ⟨runSync_relation_calls env store0 st h, ?_, ?_⟩
  · intro r hids
    rcases hpid : mapGet st.releasePageMap r.id with _ | pid <;>
      simp [relationCallOf, hpid, hids]
  · intro r hr hempty
    unfold pageIdsFor
    rw [mapGet_featuresByRelease env r hr, hempty]
    simp

/-- C4 counterexample: a release with one assigned feature whose detail
fetch yields no data receives no relation update at all, although it has
an assigned feature. -/
theorem reconciler_skips_unmapped_cex :
    ∃ st, runSync envAssignedButUnmapped { } = .ok st ∧
      mapGet (sourceRelFeatMap envAssignedButUnmapped) "r1" = some ["f1"] ∧
      mapGet st.releasePageMap "r1" = some (mkPageId 0) ∧
      st.calls.filter isUpdateRelations = [] := by
  refine ⟨_, rfl, rfl, rfl, rfl⟩

/-- C4 witness: the amended characterization instantiated on a run with
one successfully synced feature. -/
theorem reconciler_single_full_replace_witness :
    ∃ st, runSync envOneFeature { } = .ok st ∧
      st.calls.filter isUpdateRelations =
        (sourceReleases envOneFeature).filterMap
          (relationCallOf (featuresByRelease envOneFeature) st) := by
  obtain ⟨st, hst⟩ : ∃ st, runSync envOneFeature { } = .ok st := ⟨_, rfl⟩
  exact ⟨st, hst, (reconciler_single_full_replace envOneFeature _ st hst).1⟩

/-- C10: every page id the reconciler writes into a Features relation is
a value of the run's feature page map, belonging to a feature assigned to
that release in the source; the written list is the mapped subset of the
release's assignment set. -/
theorem relation_writes_known_pages (env : SyncEnv) (store0 : Store) (st : RunState)
    (h : runSync env store0 = .ok st) :
    ∀ pid ids, NCall.updateRelations pid ids ∈ st.calls →
      ∃ r, r ∈ sourceReleases env ∧ mapGet st.releasePageMap r.id = some pid ∧
        ids = pageIdsFor (featuresByRelease env) st r ∧
        ∀ i ∈ ids, ∃ f : Feature, mapGet st.featurePageMap f.id = some i ∧
          f.id ∈ (mapGet (sourceRelFeatMap env) r.id).getD [] := by
  intro pid ids hmem
  have hmem2 : NCall.updateRelations pid ids ∈ st.calls.filter isUpdateRelations :=
    List.mem_filter.mpr ⟨hmem, rfl⟩
  rw [runSync_relation_calls env store0 st h] at hmem2
  obtain ⟨r, hr, hcall⟩ := List.mem_filterMap.mp hmem2
  refine ⟨r, hr, ?_⟩
  unfold relationCallOf at hcall
  rcases hpid : mapGet st.releasePageMap r.id with _ | pid'
  · rw [hpid] at hcall
    simp at hcall
  · rw [hpid] at hcall
    dsimp only at hcall
    by_cases hne : pid' = ""
    · rw [hne] at hcall
      simp at hcall
    · rw [if_pos hne] at hcall
      by_cases hids : pageIdsFor (featuresByRelease env) st r = []
      · rw [hids] at hcall
        simp at hcall
      · rw [if_pos hids] at hcall
        simp only [Option.some.injEq, NCall.updateRelations.injEq] at hcall
        obtain ⟨hpe, hle⟩ := hcall
        refine ⟨by rw [hpe], hle.symm, ?_⟩
        intro i hi
        rw [hle.symm] at hi
        unfold pageIdsFor at hi
        rw [List.mem_filter] at hi
        obtain ⟨hi1, -⟩ := hi
        rw [List.mem_filterMap] at hi1
        obtain ⟨o, ho, hoi⟩ := hi1
        rw [List.mem_map] at ho
        obtain ⟨f, hf, hfo⟩ := ho
        refine ⟨f, by rw [hfo]; simpa using hoi, ?_⟩
        rw [mapGet_featuresByRelease env r hr] at hf
        simp only [Option.getD_some] at hf
        rw [List.mem_filter] at hf
        have hcont := hf.2
        simpa using hcont

/-- C10 witness: the theorem instantiated on the one-feature run, at its
single relation-update call. -/
theorem relation_writes_known_pages_witness :
    ∃ r, r ∈ sourceReleases envOneFeature ∧
      mapGet (runSyncD envOneFeature { }).releasePageMap r.id = some (mkPageId 0) ∧
      [mkPageId 1] = pageIdsFor (featuresByRelease envOneFeature) (runSyncD envOneFeature { }) r ∧
      ∀ i ∈ [mkPageId 1], ∃ f : Feature,
        mapGet (runSyncD envOneFeature { }).featurePageMap f.id = some i ∧
        f.id ∈ (mapGet (sourceRelFeatMap envOneFeature) r.id).getD [] :=
  relation_writes_known_pages envOneFeature { } (runSyncD envOneFeature { }) rfl
    (mkPageId 0) [mkPageId 1] (by decide)

/-! ## Per-item fault isolation (C5) -/

/-- C5 counterexample: a failure querying the target features database
while building the index aborts the run, although the configuration is
present and listing the source releases succeeds. -/
theorem index_failure_fatal_cex :
    runSync envIndexFail { } = .error .queryFeaturesDbFailed ∧
      configOk envIndexFail = true ∧ envIndexFail.releasesResult = .ok [] :=
  ⟨rfl, rfl, rfl⟩

/-- C5 (amended form): per-item failures never abort the run — a failed
assignment fetch yields an empty list for that release, a failed feature
detail fetch skips the feature, and a failed page retrieval counts the
record unchanged — and only missing configuration, a target database
query failure during index building, or a failure listing the source
releases is fatal. -/
theorem per_item_failures_isolated (env : SyncEnv) (store0 : Store)
    (hcfg : configOk env = true) (hq1 : env.queryReleasesDbOk = true)
    (hq2 : env.queryFeaturesDbOk = true) (raws : List RawRelease)
    (hrel : env.releasesResult = .ok raws) :
    (∃ st, runSync env store0 = .ok st) ∧
    (∀ r ∈ sourceReleases env, ∀ m, env.assignmentsResult r.id = .error m →
      mapGet (sourceRelFeatMap env) r.id = some []) ∧
    (∀ fid m, env.featureDetailResult fid = .error m → featureOf env fid = none) ∧
    (∀ st : RunState, ∀ r : Release, ∀ pid,
      mapGet st.idMapReleases r.id = some pid →
      env.pageCallFails st.callIdx = true →
      (syncReleaseStep env st r).stats.releases.unchanged =
          st.stats.releases.unchanged + 1 ∧
        (syncReleaseStep env st r).stats.releases.created = st.stats.releases.created ∧
        (syncReleaseStep env st r).stats.releases.updated = st.stats.releases.updated ∧
        (syncReleaseStep env st r).store = st.store) ∧
    (∀ st : RunState, ∀ f : Feature, ∀ pid,
      mapGet st.idMapFeatures f.id = some pid →
      env.pageCallFails st.callIdx = true →
      (syncFeatureStep env st f).stats.features.unchanged =
          st.stats.features.unchanged + 1 ∧
        (syncFeatureStep env st f).store = st.store) := by
  refine ⟨?_, ?_, ?_, ?_, ?_⟩
  · simp only [runSync, hcfg, hq1, hq2, hrel]
    exact ⟨_, rfl⟩
  · intro r hr m hm
    rw [mapGet_sourceRelFeatMap env r hr, hm]
    rfl
  · intro fid m hm
    unfold featureOf
    rw [hm]
  · intro st r pid hmg hfail
    simp [syncReleaseStep, recordCall, hmg, hfail]
  · intro st f pid hmg hfail
    simp [syncFeatureStep, recordCall, hmg, hfail]

/-- C5 witness: a run whose assignment and detail fetches all fail still
completes, with the failed release holding an empty assignment list. -/
theorem per_item_failures_isolated_witness :
    (∃ st, runSync envPerItemFailures { } = .ok st) ∧
      mapGet (sourceRelFeatMap envPerItemFailures) "r1" = some [] := by
  obtain ⟨ha, hb, -, -, -⟩ :=
    per_item_failures_isolated envPerItemFailures { } rfl rfl rfl _ rfl
  refine ⟨ha, ?_⟩
  have hmem : ({ id := "r1", name := "R1" } : Release) ∈ sourceReleases envPerItemFailures := by
    decide
  simpa using hb { id := "r1", name := "R1" } hmem "boom" rfl

/-! ## Idempotence of the sync (C1) -/

theorem mkPageId_ne_empty (n : Nat) : mkPageId n ≠ "" := by
  intro h
  have h2 := congrArg String.data h
  simp [mkPageId] at h2

theorem mkPageId_inj {m n : Nat} (h : mkPageId m = mkPageId n) : m = n := by
  have h2 := congrArg String.data h
  simp only [mkPageId] at h2
  have h3 := congrArg List.length h2
  simpa using h3

theorem jsOrNull_ne_some_empty (x : Option String) : jsOrNull x ≠ some "" := by
  unfold jsOrNull optTruthy
  rcases x with _ | s
  · simp
  · by_cases hs : s = "" <;> simp [hs]

theorem jsOrNull_eq_some {x : Option String} {s : String} (h : jsOrNull x = some s) :
    x = some s ∧ s ≠ "" := by
  unfold jsOrNull optTruthy at h
  rcases x with _ | t
  · simp at h
  · by_cases ht : t = "" <;> simp [ht] at h <;> simp_all

theorem firstTruthy_ne_some_empty (xs : List (Option String)) :
    firstTruthy xs ≠ some "" := by
  unfold firstTruthy
  rcases hf : xs.find? optTruthy with _ | x
  · simp
  · have htr := List.find?_some hf
    rcases x with _ | s
    · simp [optTruthy] at htr
    · intro hc
      simp [Option.join] at hc
      subst hc
      simp [optTruthy] at htr

theorem jsToLowerCase_ne_empty {s : String} (h : s ≠ "") : jsToLowerCase s ≠ "" := by
  intro hc
  apply h
  have h2 := congrArg String.data hc
  simp only [jsToLowerCase] at h2
  have h3 : s.data = [] := by simpa using h2
  exact String.ext h3

theorem normalizeHealth_ne_empty (x : Option String) : normalizeHealth x ≠ "" := by
  unfold normalizeHealth
  rcases x with _ | s
  · simp
  · by_cases hs : s = ""
    · simp [hs]
    · simp [hs, jsToLowerCase_ne_empty hs]

theorem sourceReleases_rg_wf (env : SyncEnv) :
    ∀ r ∈ sourceReleases env, r.releaseGroup ≠ some "" := by
  intro r hr
  unfold sourceReleases at hr
  rcases henv : env.releasesResult with m | raws <;> rw [henv] at hr
  · simp at hr
  · unfold fetchAllReleases at hr
    rw [List.mem_map] at hr
    obtain ⟨raw, -, hraw⟩ := hr
    rw [← hraw]
    exact jsOrNull_ne_some_empty _

theorem detectChanges_self_release (r : Release) :
    detectChanges (releasePbData r) (releasePbData r) = none := by
  simp [detectChanges, releasePbData, jsGet, List.find?]

theorem detectChanges_self_feature (f : Feature) (relJs : JsVal) :
    detectChanges (featurePbData f relJs) (featurePbData f relJs) = none := by
  simp [detectChanges, featurePbData, jsGet, List.find?]

theorem jsGet_featurePbData_releaseId (f : Feature) (relJs : JsVal) :
    jsGet (featurePbData f relJs) "releaseId" = relJs := by
  simp [featurePbData, jsGet, List.find?]

theorem mem_keys_mapSet {β : Type} {m : List (String × β)} {k k' : String} {v : β}
    (h : k' ∈ (mapSet m k v).map Prod.fst) : k' ∈ m.map Prod.fst ∨ k' = k := by
  unfold mapSet at h
  split at h
  · left
    rw [List.map_map] at h
    rw [List.mem_map] at h ⊢
    obtain ⟨p, hp, hpe⟩ := h
    refine ⟨p, hp, ?_⟩
    by_cases hpk : p.1 = k <;> simp [hpk] at hpe <;> simp [hpe, hpk]
  · rw [List.map_append, List.mem_append] at h
    rcases h with h | h
    · exact Or.inl h
    · right
      simpa using h

theorem mem_keys_foldl_mapSet {β : Type} (V : String → β) (l : List String)
    (m0 : List (String × β)) {k : String}
    (h : k ∈ ((l.foldl (fun m x => mapSet m x (V x)) m0).map Prod.fst)) :
    k ∈ m0.map Prod.fst ∨ k ∈ l := by
  induction l generalizing m0 with
  | nil => exact Or.inl h
  | cons x xs ih =>
      rw [List.foldl_cons] at h
      rcases ih (mapSet m0 x (V x)) h with h2 | h2
      · rcases mem_keys_mapSet h2 with h3 | h3
        · exact Or.inl h3
        · exact Or.inr (h3 ▸ List.mem_cons_self x xs)
      · exact Or.inr (List.mem_cons_of_mem x h2)

theorem keys_sourceRelFeatMap (env : SyncEnv) {k : String}
    (h : k ∈ (sourceRelFeatMap env).map Prod.fst) :
    k ∈ (sourceReleases env).map Release.id := by
  unfold sourceRelFeatMap at h
  rw [show (sourceReleases env).foldl
      (fun m r => mapSet m r.id (fetchAssignments (env.assignmentsResult r.id))) [] =
      ((sourceReleases env).map Release.id).foldl
        (fun m x => mapSet m x (fetchAssignments (env.assignmentsResult x))) []
    from (List.foldl_map Release.id
      (fun m x => mapSet m x (fetchAssignments (env.assignmentsResult x)))
      (sourceReleases env) []).symm] at h
  rcases mem_keys_foldl_mapSet _ _ _ h with h2 | h2
  · simp at h2
  · exact h2

theorem mem_values_mapSet {β : Type} {m : List (String × β)} {k : String} {v w : β}
    (h : w ∈ (mapSet m k v).map Prod.snd) : w ∈ m.map Prod.snd ∨ w = v := by
  unfold mapSet at h
  split at h
  · rw [List.map_map, List.mem_map] at h
    obtain ⟨p, hp, hpe⟩ := h
    by_cases hpk : p.1 = k
    · simp [hpk] at hpe
      exact Or.inr hpe.symm
    · simp [hpk] at hpe
      exact Or.inl (hpe ▸ List.mem_map_of_mem Prod.snd hp)
  · rw [List.map_append, List.mem_append] at h
    rcases h with h | h
    · exact Or.inl h
    · right
      simpa using h

theorem mem_values_foldl_mapSet {β : Type} (V : String → β) (l : List String)
    (m0 : List (String × β)) {w : β}
    (h : w ∈ ((l.foldl (fun m x => mapSet m x (V x)) m0).map Prod.snd)) :
    w ∈ m0.map Prod.snd ∨ ∃ x ∈ l, w = V x := by
  induction l generalizing m0 with
  | nil => exact Or.inl h
  | cons x xs ih =>
      rw [List.foldl_cons] at h
      rcases ih (mapSet m0 x (V x)) h with h2 | h2
      · rcases mem_values_mapSet h2 with h3 | h3
        · exact Or.inl h3
        · exact Or.inr ⟨x, List.mem_cons_self x xs, h3⟩
      · obtain ⟨y, hy, hyw⟩ := h2
        exact Or.inr ⟨y, List.mem_cons_of_mem x hy, hyw⟩

theorem fetchAssignments_mem_ne (res : Except String (List (Option String))) :
    ∀ s ∈ fetchAssignments res, s ≠ "" := by
  intro s hs
  rcases res with m | xs
  · simp [fetchAssignments] at hs
  · unfold fetchAssignments at hs
    rw [List.mem_filter] at hs
    simpa using hs.2

theorem mem_foldl_insertUnique (l : List String) (acc : List String) {k : String}
    (h : k ∈ l.foldl insertUnique acc) : k ∈ acc ∨ k ∈ l := by
  induction l generalizing acc with
  | nil => exact Or.inl h
  | cons x xs ih =>
      rw [List.foldl_cons] at h
      rcases ih (insertUnique acc x) h with h2 | h2
      · unfold insertUnique at h2
        split at h2
        · exact Or.inl h2
        · rw [List.mem_append] at h2
          rcases h2 with h2 | h2
          · exact Or.inl h2
          · have hkx : k = x := by simpa using h2
            exact Or.inr (hkx ▸ List.mem_cons_self x xs)
      · exact Or.inr (List.mem_cons_of_mem x h2)

theorem nodup_foldl_insertUnique (l : List String) (acc : List String)
    (hacc : acc.Nodup) : (l.foldl insertUnique acc).Nodup := by
  induction l generalizing acc with
  | nil => exact hacc
  | cons x xs ih =>
      rw [List.foldl_cons]
      apply ih
      unfold insertUnique
      split
      · exact hacc
      · rename_i hc
        rw [List.nodup_append]
        refine ⟨hacc, List.nodup_singleton x, ?_⟩
        intro a ha hb
        have hax : a = x := by simpa using hb
        subst hax
        apply hc
        rw [List.contains_eq_any_beq, List.any_eq_true]
        exact ⟨a, ha, by simp⟩

theorem createdReleasePage_eq (r : Release) :
    createdReleasePage r = createdReleasePageX r := by
  unfold createdReleasePage createdReleasePageX mapReleaseToNotion
    removeUndefinedProperties jsOrNull optTruthy
  repeat' split
  all_goals
    first
      | rfl
      | simp_all [applyReleasePatch, applyReleaseProp]

set_option maxHeartbeats 1000000 in
theorem createdFeaturePage_eq (f : Feature) (relJs : JsVal) :
    createdFeaturePage f relJs = createdFeaturePageX f relJs := by
  unfold createdFeaturePage createdFeaturePageX mapFeatureToNotion
    removeUndefinedProperties jsToOpt
  rcases hst : f.status with _ | s <;>
    rcases hpm : f.productManager with _ | p <;>
    rcases hpl : f.productboardLink with _ | u <;>
    rcases hr : relJs with _ | _ | i
  all_goals try by_cases hse : s = ""
  all_goals try by_cases hpe : p = ""
  all_goals try by_cases hue : u = ""
  all_goals try by_cases hie : i = ""
  all_goals by_cases hhe : f.health = ""
  all_goals simp_all [applyFeaturePatch, applyFeatureProp, jsOrNull, optTruthy]

theorem detectChanges_createdRelease (r : Release)
    (hs : r.state ≠ some "") (hg : r.releaseGroup ≠ some "") :
    detectChanges (releaseSnapshot (createdReleasePage r)) (releasePbData r) = none := by
  rw [createdReleasePage_eq]
  rcases hs' : r.state with _ | s <;> rcases hg' : r.releaseGroup with _ | g <;>
    simp_all [detectChanges, releaseSnapshot, releasePbData, createdReleasePageX,
      jsGet, List.find?, normJs, optJs, jsOrNull, optTruthy, readFirst]

theorem detectChanges_createdFeature (f : Feature) (relJs : JsVal)
    (hst : f.status ≠ some "") (hh : f.health ≠ "") (hpm : f.productManager ≠ some "")
    (hpl : f.productboardLink ≠ some "")
    (hrel : relJs = .null ∨ ∃ i, relJs = .str i ∧ i ≠ "") :
    detectChanges (featureSnapshot (createdFeaturePage f relJs)) (featurePbData f relJs)
        = none ∧
      jsGet (featureSnapshot (createdFeaturePage f relJs)) "releaseId" = relJs := by
  rw [createdFeaturePage_eq]
  rcases hst' : f.status with _ | s <;> rcases hpm' : f.productManager with _ | p <;>
    rcases hpl' : f.productboardLink with _ | u
  all_goals
    rcases hrel with hrel | ⟨i, hrel, hie⟩ <;> subst hrel <;>
      simp_all [detectChanges, featureSnapshot, featurePbData, createdFeaturePageX,
        jsGet, List.find?, normJs, optJs, jsOrNull, optTruthy, readFirst]


/-! ## Idempotence of the sync (C1) -/

theorem mapSet_of_absent {β : Type} (m : List (String × β)) (k : String) (v : β)
    (h : mapGet m k = none) : mapSet m k v = m ++ [(k, v)] := by
  unfold mapGet at h
  unfold mapSet
  rcases hf : m.find? (fun p => p.1 = k) with _ | q
  · rw [hf]
    rfl
  · rw [hf] at h
    simp at h

theorem releaseSnapshot_features_patch (p : ReleasePage) (ids : List String) :
    releaseSnapshot (applyReleasePatch p [("Features", NProp.pageRelation ids)]) =
      releaseSnapshot p := rfl

theorem pbId_features_patch (p : ReleasePage) (ids : List String) :
    (applyReleasePatch p [("Features", NProp.pageRelation ids)]).pbId = p.pbId := rfl

theorem features_updateReleaseInStore (s : Store) (pid : String) (patch : Payload) :
    (updateReleaseInStore s pid patch).features = s.features := rfl

theorem relObs_updateReleaseInStore (s : Store) (pid : String) (ids : List String) :
    ((updateReleaseInStore s pid [("Features", NProp.pageRelation ids)]).releases).map relObs
      = s.releases.map relObs := by
  simp only [updateReleaseInStore, List.map_map]
  apply List.map_congr_left
  intro q _
  by_cases h : q.1 = pid
  · simp only [Function.comp_apply, if_pos h, relObs,
      releaseSnapshot_features_patch, pbId_features_patch]
  · simp only [Function.comp_apply, if_neg h]

theorem reconObs_reconcileStep (env : SyncEnv) (fbr : List (String × List Feature))
    (st : RunState) (r : Release) :
    reconObs (reconcileStep env fbr st r) = reconObs st := by
  simp only [reconcileStep, recordCall]
  repeat' split
  all_goals try rfl
  all_goals simp [reconObs, relObs_updateReleaseInStore, features_updateReleaseInStore]

theorem reconObs_reconcile_loop (env : SyncEnv) (fbr : List (String × List Feature))
    (l : List Release) (st : RunState) :
    reconObs (l.foldl (reconcileStep env fbr) st) = reconObs st :=
  foldl_measure_const (reconcileStep env fbr) reconObs
    (fun st r => reconObs_reconcileStep env fbr st r) l st

theorem syncReleaseStep_create (env : SyncEnv) (st : RunState) (r : Release)
    (hfail : env.pageCallFails st.callIdx = false)
    (hidm : mapGet st.idMapReleases r.id = none)
    (hrpm : mapGet st.releasePageMap r.id = none) :
    syncReleaseStep env st r = { st with
      store := { st.store with
        releases := st.store.releases ++ [(mkPageId st.store.nextId, createdReleasePage r)],
        nextId := st.store.nextId + 1 },
      releasePageMap := st.releasePageMap ++ [(r.id, mkPageId st.store.nextId)],
      idMapReleases := st.idMapReleases ++ [(r.id, mkPageId st.store.nextId)],
      stats := { st.stats with releases := { st.stats.releases with
        created := st.stats.releases.created + 1 } },
      calls := st.calls ++ [.createRelease (removeUndefinedProperties (mapReleaseToNotion r))],
      callIdx := st.callIdx + 1 } := by
  simp only [syncReleaseStep, recordCall, hidm, hfail, Bool.false_eq_true, if_false,
    createdReleasePage]
  rw [mapSet_of_absent st.releasePageMap r.id (mkPageId st.store.nextId) hrpm,
    mapSet_of_absent st.idMapReleases r.id (mkPageId st.store.nextId) hidm]

theorem syncReleaseStep_unchanged (env : SyncEnv) (st : RunState) (r : Release)
    (pid : String) (page : ReleasePage)
    (hfail : env.pageCallFails st.callIdx = false)
    (hidm : mapGet st.idMapReleases r.id = some pid)
    (hpage : mapGet st.store.releases pid = some page)
    (hdc : detectChanges (releaseSnapshot page) (releasePbData r) = none) :
    syncReleaseStep env st r = { st with
      stats := { st.stats with releases := { st.stats.releases with
        unchanged := st.stats.releases.unchanged + 1 } },
      releasePageMap := mapSet st.releasePageMap r.id pid,
      calls := st.calls ++ [.retrievePage pid],
      callIdx := st.callIdx + 1 } := by
  simp only [syncReleaseStep, recordCall, hidm, hfail, Bool.false_eq_true, if_false,
    hpage, Option.map_some', hdc]

theorem syncFeatureStep_create (env : SyncEnv) (st : RunState) (f : Feature)
    (hfail : env.pageCallFails st.callIdx = false)
    (hidm : mapGet st.idMapFeatures f.id = none)
    (hfpm : mapGet st.featurePageMap f.id = none) :
    syncFeatureStep env st f = { st with
      store := { st.store with
        features := st.store.features ++
          [(mkPageId st.store.nextId, createdFeaturePage f (featureReleasePageId st f))],
        nextId := st.store.nextId + 1 },
      featurePageMap := st.featurePageMap ++ [(f.id, mkPageId st.store.nextId)],
      idMapFeatures := st.idMapFeatures ++ [(f.id, mkPageId st.store.nextId)],
      stats := { st.stats with features := { st.stats.features with
        created := st.stats.features.created + 1 } },
      calls := st.calls ++ [.createFeature (removeUndefinedProperties
        (mapFeatureToNotion f (jsToOpt (featureReleasePageId st f))))],
      callIdx := st.callIdx + 1 } := by
  simp only [syncFeatureStep, recordCall, hidm, hfail, Bool.false_eq_true, if_false,
    createdFeaturePage]
  rw [mapSet_of_absent st.featurePageMap f.id (mkPageId st.store.nextId) hfpm,
    mapSet_of_absent st.idMapFeatures f.id (mkPageId st.store.nextId) hidm]

theorem syncFeatureStep_unchanged (env : SyncEnv) (st : RunState) (f : Feature)
    (pid : String) (page : FeaturePage)
    (hfail : env.pageCallFails st.callIdx = false)
    (hidm : mapGet st.idMapFeatures f.id = some pid)
    (hpage : mapGet st.store.features pid = some page)
    (hdc : detectChanges (featureSnapshot page)
      (featurePbData f (featureReleasePageId st f)) = none)
    (hrc : jsGet (featureSnapshot page) "releaseId" = featureReleasePageId st f) :
    syncFeatureStep env st f = { st with
      stats := { st.stats with features := { st.stats.features with
        unchanged := st.stats.features.unchanged + 1 } },
      featurePageMap := mapSet st.featurePageMap f.id pid,
      calls := st.calls ++ [.retrievePage pid],
      callIdx := st.callIdx + 1 } := by
  simp only [syncFeatureStep, recordCall, hidm, hfail, Bool.false_eq_true, if_false,
    hpage, Option.map_some', hdc, hrc, Option.isSome_none, Bool.false_or]
  simp

theorem release_loop_fresh (env : SyncEnv)
    (hfail : ∀ n, env.pageCallFails n = false)
    (R : List Release) (st : RunState)
    (hnd : (R.map Release.id).Nodup)
    (hidm : ∀ r ∈ R, mapGet st.idMapReleases r.id = none)
    (hrpm : ∀ r ∈ R, mapGet st.releasePageMap r.id = none) :
    ∃ cs, R.foldl (syncReleaseStep env) st = { st with
      store := { st.store with
        releases := st.store.releases ++ createdPagesR R st.store.nextId,
        nextId := st.store.nextId + R.length },
      stats := { st.stats with releases := { st.stats.releases with
        created := st.stats.releases.created + R.length } },
      idMapReleases := st.idMapReleases ++ pageMapOfR R st.store.nextId,
      releasePageMap := st.releasePageMap ++ pageMapOfR R st.store.nextId,
      calls := st.calls ++ cs,
      callIdx := st.callIdx + R.length } := by
  induction R generalizing st with
  | nil =>
      refine ⟨[], ?_⟩
      simp [createdPagesR, pageMapOfR]
  | cons r rs ih =>
      have hhead : r.id ∉ rs.map Release.id := (List.nodup_cons.mp hnd).1
      have hnd' : (rs.map Release.id).Nodup := (List.nodup_cons.mp hnd).2
      have hne : ∀ r' ∈ rs, ¬ r.id = r'.id := fun r' hr' he =>
        hhead (he ▸ List.mem_map_of_mem Release.id hr')
      have hidm' : ∀ r' ∈ rs,
          mapGet (st.idMapReleases ++ [(r.id, mkPageId st.store.nextId)]) r'.id = none := by
        intro r' hr'
        rw [mapGet_append, hidm r' (List.mem_cons_of_mem r hr'), mapGet_cons,
          if_neg (hne r' hr')]
        rfl
      have hrpm' : ∀ r' ∈ rs,
          mapGet (st.releasePageMap ++ [(r.id, mkPageId st.store.nextId)]) r'.id = none := by
        intro r' hr'
        rw [mapGet_append, hrpm r' (List.mem_cons_of_mem r hr'), mapGet_cons,
          if_neg (hne r' hr')]
        rfl
      obtain ⟨cs, hcs⟩ := ih { st with
          store := { st.store with
            releases := st.store.releases ++
              [(mkPageId st.store.nextId, createdReleasePage r)],
            nextId := st.store.nextId + 1 },
          releasePageMap := st.releasePageMap ++ [(r.id, mkPageId st.store.nextId)],
          idMapReleases := st.idMapReleases ++ [(r.id, mkPageId st.store.nextId)],
          stats := { st.stats with releases := { st.stats.releases with
            created := st.stats.releases.created + 1 } },
          calls := st.calls ++
            [.createRelease (removeUndefinedProperties (mapReleaseToNotion r))],
          callIdx := st.callIdx + 1 } hnd' hidm' hrpm'
      refine ⟨.createRelease (removeUndefinedProperties (mapReleaseToNotion r)) :: cs, ?_⟩
      rw [List.foldl_cons,
        syncReleaseStep_create env st r (hfail st.callIdx)
          (hidm r (List.mem_cons_self r rs)) (hrpm r (List.mem_cons_self r rs)),
        hcs]
      simp only [createdPagesR, pageMapOfR, List.length_cons, List.append_assoc,
        List.singleton_append, List.cons_append, List.nil_append]
      simp only [RunState.mk.injEq, Store.mk.injEq, RunStats.mk.injEq, Stats.mk.injEq]
      repeat' apply And.intro
      all_goals first
        | rfl
        | omega
        | trivial

theorem feature_loop_fresh (env : SyncEnv)
    (hfail : ∀ n, env.pageCallFails n = false)
    (F : List Feature) (st : RunState)
    (hnd : (F.map Feature.id).Nodup)
    (hidm : ∀ f ∈ F, mapGet st.idMapFeatures f.id = none)
    (hfpm : ∀ f ∈ F, mapGet st.featurePageMap f.id = none) :
    ∃ cs, F.foldl (syncFeatureStep env) st = { st with
      store := { st.store with
        features := st.store.features ++
          createdPagesF F st.store.nextId st.releasePageMap,
        nextId := st.store.nextId + F.length },
      stats := { st.stats with features := { st.stats.features with
        created := st.stats.features.created + F.length } },
      idMapFeatures := st.idMapFeatures ++ pageMapOfF F st.store.nextId,
      featurePageMap := st.featurePageMap ++ pageMapOfF F st.store.nextId,
      calls := st.calls ++ cs,
      callIdx := st.callIdx + F.length } := by
  induction F generalizing st with
  | nil =>
      refine ⟨[], ?_⟩
      simp [createdPagesF, pageMapOfF]
  | cons f fs ih =>
      have hhead : f.id ∉ fs.map Feature.id := (List.nodup_cons.mp hnd).1
      have hnd' : (fs.map Feature.id).Nodup := (List.nodup_cons.mp hnd).2
      have hne : ∀ f' ∈ fs, ¬ f.id = f'.id := fun f' hf' he =>
        hhead (he ▸ List.mem_map_of_mem Feature.id hf')
      have hidm' : ∀ f' ∈ fs,
          mapGet (st.idMapFeatures ++ [(f.id, mkPageId st.store.nextId)]) f'.id = none := by
        intro f' hf'
        rw [mapGet_append, hidm f' (List.mem_cons_of_mem f hf'), mapGet_cons,
          if_neg (hne f' hf')]
        rfl
      have hfpm' : ∀ f' ∈ fs,
          mapGet (st.featurePageMap ++ [(f.id, mkPageId st.store.nextId)]) f'.id = none := by
        intro f' hf'
        rw [mapGet_append, hfpm f' (List.mem_cons_of_mem f hf'), mapGet_cons,
          if_neg (hne f' hf')]
        rfl
      obtain ⟨cs, hcs⟩ := ih { st with
          store := { st.store with
            features := st.store.features ++
              [(mkPageId st.store.nextId, createdFeaturePage f (featureReleasePageId st f))],
            nextId := st.store.nextId + 1 },
          featurePageMap := st.featurePageMap ++ [(f.id, mkPageId st.store.nextId)],
          idMapFeatures := st.idMapFeatures ++ [(f.id, mkPageId st.store.nextId)],
          stats := { st.stats with features := { st.stats.features with
            created := st.stats.features.created + 1 } },
          calls := st.calls ++ [.createFeature (removeUndefinedProperties
            (mapFeatureToNotion f (jsToOpt (featureReleasePageId st f))))],
          callIdx := st.callIdx + 1 } hnd' hidm' hfpm'
      refine ⟨.createFeature (removeUndefinedProperties
        (mapFeatureToNotion f (jsToOpt (featureReleasePageId st f)))) :: cs, ?_⟩
      rw [List.foldl_cons,
        syncFeatureStep_create env st f (hfail st.callIdx)
          (hidm f (List.mem_cons_self f fs)) (hfpm f (List.mem_cons_self f fs)),
        hcs]
      simp only [createdPagesF, pageMapOfF, featureReleasePageId, List.length_cons,
        List.append_assoc, List.singleton_append, List.cons_append, List.nil_append]
      simp only [RunState.mk.injEq, Store.mk.injEq, RunStats.mk.injEq, Stats.mk.injEq]
      repeat' apply And.intro
      all_goals first
        | rfl
        | omega
        | trivial

theorem release_loop_all_unchanged (env : SyncEnv)
    (hfail : ∀ n, env.pageCallFails n = false)
    (R : List Release) (st : RunState)
    (h : ∀ r ∈ R, ∃ pid page, mapGet st.idMapReleases r.id = some pid ∧
      mapGet st.store.releases pid = some page ∧
      detectChanges (releaseSnapshot page) (releasePbData r) = none) :
    ∃ rpm cs, (R.foldl (syncReleaseStep env) st = { st with
      stats := { st.stats with releases := { st.stats.releases with
        unchanged := st.stats.releases.unchanged + R.length } },
      releasePageMap := rpm,
      calls := st.calls ++ cs,
      callIdx := st.callIdx + R.length }) ∧
      ∀ k, mapGet rpm k = if k ∈ R.map Release.id then mapGet st.idMapReleases k
        else mapGet st.releasePageMap k := by
  induction R generalizing st with
  | nil =>
      refine ⟨st.releasePageMap, [], by simp, fun k => by simp⟩
  | cons r rs ih =>
      obtain ⟨pid, page, hpid, hpage, hdc⟩ := h r (List.mem_cons_self r rs)
      obtain ⟨rpm, cs, heq, hlook⟩ := ih { st with
          stats := { st.stats with releases := { st.stats.releases with
            unchanged := st.stats.releases.unchanged + 1 } },
          releasePageMap := mapSet st.releasePageMap r.id pid,
          calls := st.calls ++ [.retrievePage pid],
          callIdx := st.callIdx + 1 }
        (fun r' hr' => h r' (List.mem_cons_of_mem r hr'))
      refine ⟨rpm, .retrievePage pid :: cs, ?_, ?_⟩
      · rw [List.foldl_cons,
          syncReleaseStep_unchanged env st r pid page (hfail st.callIdx) hpid hpage hdc,
          heq]
        simp only [List.length_cons, List.append_assoc, List.singleton_append,
          List.cons_append, List.nil_append]
        simp only [RunState.mk.injEq, RunStats.mk.injEq, Stats.mk.injEq]
        repeat' apply And.intro
        all_goals first
          | rfl
          | omega
          | trivial
      · intro k
        rw [hlook k]
        by_cases h1 : k ∈ rs.map Release.id
        · simp [h1, List.mem_cons]
        · by_cases h2 : k = r.id
          · subst h2
            simp [h1, mapGet_mapSet, hpid, List.mem_cons]
          · have h2' : ¬ r.id = k := fun he => h2 he.symm
            simp [h1, h2, h2', mapGet_mapSet, List.mem_cons]

theorem feature_loop_all_unchanged (env : SyncEnv)
    (hfail : ∀ n, env.pageCallFails n = false)
    (F : List Feature) (st : RunState)
    (h : ∀ f ∈ F, ∃ pid page, mapGet st.idMapFeatures f.id = some pid ∧
      mapGet st.store.features pid = some page ∧
      detectChanges (featureSnapshot page)
        (featurePbData f (featureReleasePageId st f)) = none ∧
      jsGet (featureSnapshot page) "releaseId" = featureReleasePageId st f) :
    ∃ fpm cs, F.foldl (syncFeatureStep env) st = { st with
      stats := { st.stats with features := { st.stats.features with
        unchanged := st.stats.features.unchanged + F.length } },
      featurePageMap := fpm,
      calls := st.calls ++ cs,
      callIdx := st.callIdx + F.length } := by
  induction F generalizing st with
  | nil =>
      refine ⟨st.featurePageMap, [], by simp⟩
  | cons f fs ih =>
      obtain ⟨pid, page, hpid, hpage, hdc, hrc⟩ := h f (List.mem_cons_self f fs)
      obtain ⟨fpm, cs, heq⟩ := ih { st with
          stats := { st.stats with features := { st.stats.features with
            unchanged := st.stats.features.unchanged + 1 } },
          featurePageMap := mapSet st.featurePageMap f.id pid,
          calls := st.calls ++ [.retrievePage pid],
          callIdx := st.callIdx + 1 }
        (fun f' hf' => h f' (List.mem_cons_of_mem f hf'))
      refine ⟨fpm, .retrievePage pid :: cs, ?_⟩
      rw [List.foldl_cons,
        syncFeatureStep_unchanged env st f pid page (hfail st.callIdx) hpid hpage hdc hrc,
        heq]
      simp only [List.length_cons, List.append_assoc, List.singleton_append,
        List.cons_append, List.nil_append]
      simp only [RunState.mk.injEq, RunStats.mk.injEq, Stats.mk.injEq]
      repeat' apply And.intro
      all_goals first
        | rfl
        | omega
        | trivial

theorem readFirst_createdReleasePage (r : Release) (h : r.id ≠ "") :
    readFirst (createdReleasePage r).pbId = some r.id := by
  rw [createdReleasePage_eq]
  simp [createdReleasePageX, readFirst, h]

theorem readFirst_createdFeaturePage (f : Feature) (relJs : JsVal) (h : f.id ≠ "") :
    readFirst (createdFeaturePage f relJs).pbId = some f.id := by
  rw [createdFeaturePage_eq]
  simp [createdFeaturePageX, readFirst, h]

theorem idxRelAux_cons (m0 : List (String × String)) (p : String × ReleasePage)
    (ps : List (String × ReleasePage)) :
    idxRelAux m0 (p :: ps) = idxRelAux
      (match readFirst p.2.pbId with
       | some pbId => mapSet m0 pbId p.1
       | none => m0) ps := rfl

theorem idxFeatAux_cons (m0 : List (String × String)) (p : String × FeaturePage)
    (ps : List (String × FeaturePage)) :
    idxFeatAux m0 (p :: ps) = idxFeatAux
      (match readFirst p.2.pbId with
       | some pbId => mapSet m0 pbId p.1
       | none => m0) ps := rfl

theorem idxRelAux_congr {l l' : List (String × ReleasePage)}
    (m0 : List (String × String)) (h : l'.map relObs = l.map relObs) :
    idxRelAux m0 l' = idxRelAux m0 l := by
  induction l' generalizing l m0 with
  | nil =>
      cases l
      · rfl
      · simp at h
  | cons q l2 ih =>
      cases l with
      | nil => simp at h
      | cons p l3 =>
          rw [List.map_cons, List.map_cons] at h
          injection h with h1 h2
          have hk0 := congrArg
            (fun t : String × List (String × JsVal) × Option String => t.1) h1
          have hk : q.1 = p.1 := hk0
          have hrf0 := congrArg
            (fun t : String × List (String × JsVal) × Option String => t.2.2) h1
          have hrf : readFirst q.2.pbId = readFirst p.2.pbId := hrf0
          rw [idxRelAux_cons, idxRelAux_cons, hrf, hk]
          exact ih _ h2

theorem mapGet_snap_congr {l l' : List (String × ReleasePage)}
    (h : l'.map relObs = l.map relObs) (k : String) :
    (mapGet l' k).map releaseSnapshot = (mapGet l k).map releaseSnapshot := by
  induction l' generalizing l with
  | nil =>
      cases l
      · rfl
      · simp at h
  | cons q l2 ih =>
      cases l with
      | nil => simp at h
      | cons p l3 =>
          rw [List.map_cons, List.map_cons] at h
          injection h with h1 h2
          obtain ⟨qk, qv⟩ := q
          obtain ⟨pk, pv⟩ := p
          have hk0 := congrArg
            (fun t : String × List (String × JsVal) × Option String => t.1) h1
          have hk : qk = pk := hk0
          have hsnap0 := congrArg
            (fun t : String × List (String × JsVal) × Option String => t.2.1) h1
          have hsnap : releaseSnapshot qv = releaseSnapshot pv := hsnap0
          rw [mapGet_cons, mapGet_cons, hk]
          by_cases hkk : pk = k
          · simp [hkk, hsnap]
          · simp [hkk, ih h2]

theorem idxRelAux_createdPagesR (R : List Release) (n : Nat)
    (m0 : List (String × String))
    (hne : ∀ r ∈ R, r.id ≠ "")
    (hnd : (R.map Release.id).Nodup)
    (hfresh : ∀ r ∈ R, mapGet m0 r.id = none) :
    idxRelAux m0 (createdPagesR R n) = m0 ++ pageMapOfR R n := by
  induction R generalizing n m0 with
  | nil => simp [createdPagesR, pageMapOfR, idxRelAux]
  | cons r rs ih =>
      have hhead : r.id ∉ rs.map Release.id := (List.nodup_cons.mp hnd).1
      have hnd' : (rs.map Release.id).Nodup := (List.nodup_cons.mp hnd).2
      have hne' : ∀ r' ∈ rs, r'.id ≠ "" := fun r' hr' =>
        hne r' (List.mem_cons_of_mem r hr')
      have hfresh' : ∀ r' ∈ rs,
          mapGet (m0 ++ [(r.id, mkPageId n)]) r'.id = none := by
        intro r' hr'
        rw [mapGet_append, hfresh r' (List.mem_cons_of_mem r hr'), mapGet_cons,
          if_neg (fun he : r.id = r'.id => hhead (by
            rw [he]
            exact List.mem_map_of_mem Release.id hr'))]
        rfl
      rw [show createdPagesR (r :: rs) n =
          (mkPageId n, createdReleasePage r) :: createdPagesR rs (n + 1) from rfl,
        idxRelAux_cons, readFirst_createdReleasePage r (hne r (List.mem_cons_self r rs))]
      rw [show pageMapOfR (r :: rs) n =
          (r.id, mkPageId n) :: pageMapOfR rs (n + 1) from rfl]
      dsimp only
      rw [mapSet_of_absent m0 r.id (mkPageId n) (hfresh r (List.mem_cons_self r rs))]
      rw [ih (n + 1) (m0 ++ [(r.id, mkPageId n)]) hne' hnd' hfresh']
      simp

theorem idxFeatAux_createdPagesF (F : List Feature) (n : Nat)
    (rpm : List (String × String)) (m0 : List (String × String))
    (hne : ∀ f ∈ F, f.id ≠ "")
    (hnd : (F.map Feature.id).Nodup)
    (hfresh : ∀ f ∈ F, mapGet m0 f.id = none) :
    idxFeatAux m0 (createdPagesF F n rpm) = m0 ++ pageMapOfF F n := by
  induction F generalizing n m0 with
  | nil => simp [createdPagesF, pageMapOfF, idxFeatAux]
  | cons f fs ih =>
      have hhead : f.id ∉ fs.map Feature.id := (List.nodup_cons.mp hnd).1
      have hnd' : (fs.map Feature.id).Nodup := (List.nodup_cons.mp hnd).2
      have hne' : ∀ f' ∈ fs, f'.id ≠ "" := fun f' hf' =>
        hne f' (List.mem_cons_of_mem f hf')
      have hfresh' : ∀ f' ∈ fs,
          mapGet (m0 ++ [(f.id, mkPageId n)]) f'.id = none := by
        intro f' hf'
        rw [mapGet_append, hfresh f' (List.mem_cons_of_mem f hf'), mapGet_cons,
          if_neg (fun he : f.id = f'.id => hhead (by
            rw [he]
            exact List.mem_map_of_mem Feature.id hf'))]
        rfl
      rw [show createdPagesF (f :: fs) n rpm =
          (mkPageId n, createdFeaturePage f (relJsOf rpm f)) ::
            createdPagesF fs (n + 1) rpm from rfl,
        idxFeatAux_cons,
        readFirst_createdFeaturePage f (relJsOf rpm f) (hne f (List.mem_cons_self f fs))]
      rw [show pageMapOfF (f :: fs) n =
          (f.id, mkPageId n) :: pageMapOfF fs (n + 1) from rfl]
      dsimp only
      rw [mapSet_of_absent m0 f.id (mkPageId n) (hfresh f (List.mem_cons_self f fs))]
      rw [ih (n + 1) (m0 ++ [(f.id, mkPageId n)]) hne' hnd' hfresh']
      simp

theorem pageMapOfR_align (R : List Release) (n : Nat)
    (hnd : (R.map Release.id).Nodup) {r : Release} (hr : r ∈ R) :
    ∃ j, n ≤ j ∧ mapGet (pageMapOfR R n) r.id = some (mkPageId j) ∧
      mapGet (createdPagesR R n) (mkPageId j) = some (createdReleasePage r) := by
  induction R generalizing n with
  | nil => cases hr
  | cons r0 rs ih =>
      rcases List.mem_cons.mp hr with he | hm
      · refine ⟨n, le_refl n, ?_, ?_⟩
        · rw [show pageMapOfR (r0 :: rs) n =
              (r0.id, mkPageId n) :: pageMapOfR rs (n + 1) from rfl,
            mapGet_cons, he, if_pos rfl]
        · rw [show createdPagesR (r0 :: rs) n =
              (mkPageId n, createdReleasePage r0) :: createdPagesR rs (n + 1) from rfl,
            mapGet_cons, if_pos rfl, he]
      · have hhead : r0.id ∉ rs.map Release.id := (List.nodup_cons.mp hnd).1
        have hnd' : (rs.map Release.id).Nodup := (List.nodup_cons.mp hnd).2
        obtain ⟨j, hj, h1, h2⟩ := ih (n + 1) hnd' hm
        refine ⟨j, by omega, ?_, ?_⟩
        · rw [show pageMapOfR (r0 :: rs) n =
              (r0.id, mkPageId n) :: pageMapOfR rs (n + 1) from rfl,
            mapGet_cons,
            if_neg (fun he : r0.id = r.id => hhead (by
              rw [he]
              exact List.mem_map_of_mem Release.id hm)), h1]
        · rw [show createdPagesR (r0 :: rs) n =
              (mkPageId n, createdReleasePage r0) :: createdPagesR rs (n + 1) from rfl,
            mapGet_cons,
            if_neg (fun he : mkPageId n = mkPageId j => by
              have := mkPageId_inj he
              omega), h2]

theorem pageMapOfF_align (F : List Feature) (n : Nat) (rpm : List (String × String))
    (hnd : (F.map Feature.id).Nodup) {f : Feature} (hf : f ∈ F) :
    ∃ j, n ≤ j ∧ mapGet (pageMapOfF F n) f.id = some (mkPageId j) ∧
      mapGet (createdPagesF F n rpm) (mkPageId j) =
        some (createdFeaturePage f (relJsOf rpm f)) := by
  induction F generalizing n with
  | nil => cases hf
  | cons f0 fs ih =>
      rcases List.mem_cons.mp hf with he | hm
      · refine ⟨n, le_refl n, ?_, ?_⟩
        · rw [show pageMapOfF (f0 :: fs) n =
              (f0.id, mkPageId n) :: pageMapOfF fs (n + 1) from rfl,
            mapGet_cons, he, if_pos rfl]
        · rw [show createdPagesF (f0 :: fs) n rpm =
              (mkPageId n, createdFeaturePage f0 (relJsOf rpm f0)) ::
                createdPagesF fs (n + 1) rpm from rfl,
            mapGet_cons, if_pos rfl, he]
      · have hhead : f0.id ∉ fs.map Feature.id := (List.nodup_cons.mp hnd).1
        have hnd' : (fs.map Feature.id).Nodup := (List.nodup_cons.mp hnd).2
        obtain ⟨j, hj, h1, h2⟩ := ih (n + 1) hnd' hm
        refine ⟨j, by omega, ?_, ?_⟩
        · rw [show pageMapOfF (f0 :: fs) n =
              (f0.id, mkPageId n) :: pageMapOfF fs (n + 1) from rfl,
            mapGet_cons,
            if_neg (fun he : f0.id = f.id => hhead (by
              rw [he]
              exact List.mem_map_of_mem Feature.id hm)), h1]
        · rw [show createdPagesF (f0 :: fs) n rpm =
              (mkPageId n, createdFeaturePage f0 (relJsOf rpm f0)) ::
                createdPagesF fs (n + 1) rpm from rfl,
            mapGet_cons,
            if_neg (fun he : mkPageId n = mkPageId j => by
              have := mkPageId_inj he
              omega), h2]

theorem relJsOf_eq_of_get {rpm rpm' : List (String × String)} (f : Feature)
    (h : ∀ rid, f.releaseId = some rid → mapGet rpm rid = mapGet rpm' rid) :
    relJsOf rpm f = relJsOf rpm' f := by
  unfold relJsOf
  rcases hf : f.releaseId with _ | rid
  · rfl
  · dsimp only
    rw [h rid hf]

theorem featureOf_id (env : SyncEnv)
    (hdetail : ∀ fid raw, env.featureDetailResult fid = .ok (some raw) → raw.id = fid)
    {fid : String} {f : Feature} (h : featureOf env fid = some f) : f.id = fid := by
  unfold featureOf at h
  rcases hres : env.featureDetailResult fid with m | raw <;> rw [hres] at h
  · simp at h
  · rcases raw with _ | rawF
    · simp [fetchFeatureDetails] at h
    · simp only [fetchFeatureDetails, Option.some.injEq] at h
      rw [← h]
      exact hdetail fid rawF hres

theorem featureOf_wf (env : SyncEnv) {fid : String} {f : Feature}
    (h : featureOf env fid = some f) :
    f.status ≠ some "" ∧ f.health ≠ "" ∧ f.productManager ≠ some "" ∧
      f.productboardLink ≠ some "" ∧
      (f.releaseId = none ∨ ∃ rid, f.releaseId = some rid ∧ rid ≠ "" ∧
        rid ∈ (sourceReleases env).map Release.id) := by
  unfold featureOf at h
  rcases hres : env.featureDetailResult fid with m | raw <;> rw [hres] at h
  · simp at h
  · rcases raw with _ | rawF
    · simp [fetchFeatureDetails] at h
    · simp only [fetchFeatureDetails, Option.some.injEq] at h
      subst h
      refine ⟨jsOrNull_ne_some_empty _, normalizeHealth_ne_empty _,
        firstTruthy_ne_some_empty _, jsOrNull_ne_some_empty _, ?_⟩
      rcases hj : jsOrNull (releaseIdsOf env fid).head? with _ | rid
      · exact Or.inl rfl
      · obtain ⟨hx, hrne⟩ := jsOrNull_eq_some hj
        have hmem : rid ∈ releaseIdsOf env fid := by
          rcases hl : releaseIdsOf env fid with _ | ⟨a, l⟩
          · rw [hl] at hx
            simp at hx
          · rw [hl] at hx
            simp at hx
            exact hx ▸ List.mem_cons_self a l
        have hkey : rid ∈ (sourceRelFeatMap env).map Prod.fst := by
          unfold releaseIdsOf at hmem
          rw [List.mem_map] at hmem
          obtain ⟨p, hp, hpe⟩ := hmem
          rw [List.mem_filter] at hp
          exact hpe ▸ List.mem_map_of_mem Prod.fst hp.1
        exact Or.inr ⟨rid, rfl, hrne, keys_sourceRelFeatMap env hkey⟩

theorem map_filterMap_sublist {α β : Type} (g : α → Option β) (h2 : β → α)
    (l : List α) (hg : ∀ a b, g a = some b → h2 b = a) :
    ((l.filterMap g).map h2).Sublist l := by
  induction l with
  | nil => simp
  | cons a as ih =>
      rcases hga : g a with _ | b <;> rw [List.filterMap_cons, hga] <;> dsimp only
      · exact List.Sublist.cons a ih
      · rw [List.map_cons, hg a b hga]
        exact List.Sublist.cons₂ a ih

theorem sourceFeatures_ids_sublist (env : SyncEnv)
    (hdetail : ∀ fid raw, env.featureDetailResult fid = .ok (some raw) → raw.id = fid) :
    ((sourceFeatures env).map Feature.id).Sublist (sourceFeatureIds env) := by
  unfold sourceFeatures
  exact map_filterMap_sublist (featureOf env) Feature.id (sourceFeatureIds env)
    (fun a b hb => featureOf_id env hdetail hb)

theorem sourceFeatureIds_nodup (env : SyncEnv) : (sourceFeatureIds env).Nodup := by
  unfold sourceFeatureIds
  exact nodup_foldl_insertUnique _ [] List.nodup_nil

theorem sourceFeatures_ids_nodup (env : SyncEnv)
    (hdetail : ∀ fid raw, env.featureDetailResult fid = .ok (some raw) → raw.id = fid) :
    ((sourceFeatures env).map Feature.id).Nodup :=
  (sourceFeatureIds_nodup env).sublist (sourceFeatures_ids_sublist env hdetail)

theorem sourceFeatureIds_ne_empty (env : SyncEnv) :
    ∀ fid ∈ sourceFeatureIds env, fid ≠ "" := by
  intro fid hfid
  unfold sourceFeatureIds at hfid
  rcases mem_foldl_insertUnique _ _ hfid with h | h
  · simp at h
  · rw [List.mem_flatten] at h
    obtain ⟨vals, hvals, hin⟩ := h
    unfold sourceRelFeatMap at hvals
    rw [show (sourceReleases env).foldl
        (fun m r => mapSet m r.id (fetchAssignments (env.assignmentsResult r.id))) [] =
        ((sourceReleases env).map Release.id).foldl
          (fun m x => mapSet m x (fetchAssignments (env.assignmentsResult x))) []
      from (List.foldl_map Release.id
        (fun m x => mapSet m x (fetchAssignments (env.assignmentsResult x)))
        (sourceReleases env) []).symm] at hvals
    rcases mem_values_foldl_mapSet _ _ _ hvals with h2 | ⟨x, hx, h2⟩
    · simp at h2
    · subst h2
      exact fetchAssignments_mem_ne _ fid hin

theorem sourceFeatures_wf (env : SyncEnv) :
    ∀ f ∈ sourceFeatures env, f.status ≠ some "" ∧ f.health ≠ "" ∧
      f.productManager ≠ some "" ∧ f.productboardLink ≠ some "" ∧
      (f.releaseId = none ∨ ∃ rid, f.releaseId = some rid ∧ rid ≠ "" ∧
        rid ∈ (sourceReleases env).map Release.id) := by
  intro f hf
  unfold sourceFeatures at hf
  rw [List.mem_filterMap] at hf
  obtain ⟨fid, hfid, hof⟩ := hf
  exact featureOf_wf env hof

theorem sourceFeatures_id_ne (env : SyncEnv)
    (hdetail : ∀ fid raw, env.featureDetailResult fid = .ok (some raw) → raw.id = fid) :
    ∀ f ∈ sourceFeatures env, f.id ≠ "" := by
  intro f hf
  unfold sourceFeatures at hf
  rw [List.mem_filterMap] at hf
  obtain ⟨fid, hfid, hof⟩ := hf
  rw [featureOf_id env hdetail hof]
  exact sourceFeatureIds_ne_empty env fid hfid

/-- C1 (amended): for every source dataset with distinct non-empty release
ids, no empty-string release state, feature details whose ids match the
requested ids, and no failing Notion page calls, running the sync twice in
succession — the second run building its index from the target state left
by the first — yields on the second run zero created and zero updated
counts for both entity types: every release and every feature is counted
unchanged. -/
theorem sync_idempotent (env : SyncEnv) (st1 st2 : RunState)
    (hfail : ∀ n, env.pageCallFails n = false)
    (hnd : ((sourceReleases env).map Release.id).Nodup)
    (hne : ∀ r ∈ sourceReleases env, r.id ≠ "")
    (hstate : ∀ r ∈ sourceReleases env, r.state ≠ some "")
    (hdetail : ∀ fid raw, env.featureDetailResult fid = .ok (some raw) → raw.id = fid)
    (h1 : runSync env { } = .ok st1)
    (h2 : runSync env st1.store = .ok st2) :
    st2.stats = { releases := { unchanged := (sourceReleases env).length },
                  features := { unchanged := (sourceFeatures env).length } } := by
  have hndF := sourceFeatures_ids_nodup env hdetail
  have hneF := sourceFeatures_id_ne env hdetail
  -- ### run 1: the empty store is filled with freshly created pages.
  have e1 := runSync_ok_elim h1
  obtain ⟨cs1, hL1⟩ := release_loop_fresh env hfail (sourceReleases env)
    { store := { }
      idMapReleases := idxReleases { }
      idMapFeatures := idxFeatures { } } hnd (fun r hr => rfl) (fun r hr => rfl)
  set A := (sourceReleases env).foldl (syncReleaseStep env)
    { store := { }
      idMapReleases := idxReleases { }
      idMapFeatures := idxFeatures { } } with hA
  have hAidf : A.idMapFeatures = [] := by
    rw [hL1]
    rfl
  have hAfpm : A.featurePageMap = [] := by rw [hL1]
  have hArel : A.store.releases = createdPagesR (sourceReleases env) 0 := by
    rw [hL1]
    rfl
  have hAfeat : A.store.features = [] := by rw [hL1]
  have hAnext : A.store.nextId = 0 + (sourceReleases env).length := by rw [hL1]
  have hArpm : A.releasePageMap = pageMapOfR (sourceReleases env) 0 := by
    rw [hL1]
    rfl
  obtain ⟨cs2, hL2⟩ := feature_loop_fresh env hfail (sourceFeatures env) A hndF
    (fun f hf => by rw [hAidf]; rfl) (fun f hf => by rw [hAfpm]; rfl)
  set B := (sourceFeatures env).foldl (syncFeatureStep env) A with hB
  have hBrel : B.store.releases = A.store.releases := by rw [hL2]
  have hBfeat : B.store.features = A.store.features ++
      createdPagesF (sourceFeatures env) A.store.nextId A.releasePageMap := by rw [hL2]
  have hobs1 : reconObs st1 = reconObs B := by
    rw [e1]
    exact reconObs_reconcile_loop env (featuresByRelease env) (sourceReleases env) B
  have hreles : st1.store.releases.map relObs =
      (createdPagesR (sourceReleases env) 0).map relObs := by
    have hc : st1.store.releases.map relObs = B.store.releases.map relObs :=
      congrArg (fun t => t.1) hobs1
    rw [hBrel, hArel] at hc
    exact hc
  have hfeats : st1.store.features = createdPagesF (sourceFeatures env)
      (sourceReleases env).length (pageMapOfR (sourceReleases env) 0) := by
    have hc : st1.store.features = B.store.features :=
      congrArg (fun t => t.2.1) hobs1
    rw [hBfeat, hAfeat, hAnext, hArpm, List.nil_append, Nat.zero_add] at hc
    exact hc
  -- ### the identity maps the second run builds from the stored pages.
  have hidxR : idxReleases st1.store = pageMapOfR (sourceReleases env) 0 := by
    unfold idxReleases
    rw [idxRelAux_congr [] hreles,
      idxRelAux_createdPagesR (sourceReleases env) 0 [] hne hnd (fun r hr => rfl)]
    rfl
  have hidxF : idxFeatures st1.store =
      pageMapOfF (sourceFeatures env) (sourceReleases env).length := by
    unfold idxFeatures
    rw [hfeats,
      idxFeatAux_createdPagesF (sourceFeatures env) (sourceReleases env).length
        (pageMapOfR (sourceReleases env) 0) [] hneF hndF (fun f hf => rfl)]
    rfl
  -- ### run 2, release loop: every release is found and unchanged.
  have hprem : ∀ r ∈ sourceReleases env, ∃ pid page,
      mapGet (idxReleases st1.store) r.id = some pid ∧
      mapGet st1.store.releases pid = some page ∧
      detectChanges (releaseSnapshot page) (releasePbData r) = none := by
    intro r hr
    obtain ⟨j, hj, hpm, hcp⟩ := pageMapOfR_align (sourceReleases env) 0 hnd hr
    have hg : mapGet (idxReleases st1.store) r.id = some (mkPageId j) := by
      rw [hidxR]
      exact hpm
    have hsn := mapGet_snap_congr hreles (mkPageId j)
    rw [hcp, Option.map_some'] at hsn
    rcases hmg : mapGet st1.store.releases (mkPageId j) with _ | page
    · rw [hmg] at hsn
      simp at hsn
    · rw [hmg, Option.map_some'] at hsn
      have hps : releaseSnapshot page = releaseSnapshot (createdReleasePage r) := by
        simpa using hsn
      refine ⟨mkPageId j, page, hg, hmg, ?_⟩
      rw [hps]
      exact detectChanges_createdRelease r (hstate r hr) (sourceReleases_rg_wf env r hr)
  have e2 := runSync_ok_elim h2
  obtain ⟨rpm2, csA, hU1, hlook⟩ :=
    release_loop_all_unchanged env hfail (sourceReleases env)
      { store := st1.store
        idMapReleases := idxReleases st1.store
        idMapFeatures := idxFeatures st1.store } hprem
  have hlook2 : ∀ k, mapGet rpm2 k =
      if k ∈ (sourceReleases env).map Release.id
      then mapGet (idxReleases st1.store) k else none := hlook
  set C := (sourceReleases env).foldl (syncReleaseStep env)
    { store := st1.store
      idMapReleases := idxReleases st1.store
      idMapFeatures := idxFeatures st1.store } with hC
  have hCstore : C.store = st1.store := by rw [hU1]
  have hCidf : C.idMapFeatures = idxFeatures st1.store := by rw [hU1]
  have hCrpm : C.releasePageMap = rpm2 := by rw [hU1]
  have hCstats : C.stats =
      { releases := { created := 0, updated := 0,
                      unchanged := 0 + (sourceReleases env).length },
        features := { created := 0, updated := 0, unchanged := 0 } } := by
    rw [hU1]
  -- ### run 2, feature loop: every feature is found and unchanged.
  have hpremC : ∀ f ∈ sourceFeatures env, ∃ pid page,
      mapGet C.idMapFeatures f.id = some pid ∧
      mapGet C.store.features pid = some page ∧
      detectChanges (featureSnapshot page)
        (featurePbData f (featureReleasePageId C f)) = none ∧
      jsGet (featureSnapshot page) "releaseId" = featureReleasePageId C f := by
    intro f hf
    obtain ⟨w1, w2, w3, w4, w5⟩ := sourceFeatures_wf env f hf
    obtain ⟨j, hj, hpmF, hcpF⟩ := pageMapOfF_align (sourceFeatures env)
      (sourceReleases env).length (pageMapOfR (sourceReleases env) 0) hndF hf
    have hrel2f : relJsOf rpm2 f = relJsOf (pageMapOfR (sourceReleases env) 0) f := by
      apply relJsOf_eq_of_get
      intro rid hrid
      rcases w5 with hnone | ⟨rid2, hrid2, hrne2, hmemR⟩
      · rw [hnone] at hrid
        cases hrid
      · rw [hrid2] at hrid
        injection hrid with he
        subst he
        rw [hlook2 rid2, if_pos hmemR]
        exact congrArg (fun m => mapGet m rid2) hidxR
    have hRJ : featureReleasePageId C f =
        relJsOf (pageMapOfR (sourceReleases env) 0) f := by
      show relJsOf C.releasePageMap f = _
      rw [hCrpm]
      exact hrel2f
    have hform : relJsOf (pageMapOfR (sourceReleases env) 0) f = .null ∨
        ∃ i, relJsOf (pageMapOfR (sourceReleases env) 0) f = .str i ∧ i ≠ "" := by
      rcases w5 with hnone | ⟨rid, hrid, hrne, hmemR⟩
      · left
        unfold relJsOf
        rw [hnone]
      · right
        rw [List.mem_map] at hmemR
        obtain ⟨r, hrR, hre⟩ := hmemR
        obtain ⟨j2, hj2, hpm2, -⟩ := pageMapOfR_align (sourceReleases env) 0 hnd hrR
        refine ⟨mkPageId j2, ?_, mkPageId_ne_empty j2⟩
        unfold relJsOf
        rw [hrid]
        dsimp only
        rw [if_pos hrne, ← hre, hpm2]
    have hdcf := detectChanges_createdFeature f
      (relJsOf (pageMapOfR (sourceReleases env) 0) f) w1 w2 w3 w4 hform
    refine ⟨mkPageId j,
      createdFeaturePage f (relJsOf (pageMapOfR (sourceReleases env) 0) f),
      ?_, ?_, ?_, ?_⟩
    · rw [hCidf, hidxF]
      exact hpmF
    · rw [hCstore, hfeats]
      exact hcpF
    · rw [hRJ]
      exact hdcf.1
    · rw [hRJ]
      exact hdcf.2
  obtain ⟨fpm2, csB, hU2⟩ :=
    feature_loop_all_unchanged env hfail (sourceFeatures env) C hpremC
  set D := (sourceFeatures env).foldl (syncFeatureStep env) C with hD
  have hDstats : D.stats =
      { releases := { created := 0, updated := 0,
                      unchanged := 0 + (sourceReleases env).length },
        features := { created := 0, updated := 0,
                      unchanged := 0 + (sourceFeatures env).length } } := by
    rw [hU2, hCstats]
  -- ### run 2, reconciler: the counters are untouched.
  have hobs2 : reconObs st2 = reconObs D := by
    rw [e2]
    exact reconObs_reconcile_loop env (featuresByRelease env) (sourceReleases env) D
  have hstats : st2.stats = D.stats := congrArg (fun t => t.2.2.1) hobs2
  rw [hstats, hDstats]
  simp

/-- C1 counterexample: a release whose raw state is the empty string is
counted updated — not unchanged — on the second run, because the create
payload drops the falsy state while the fresh comparison value is the
empty string, so `detectChanges` reports a difference on every run. -/
theorem sync_not_idempotent_cex :
    ∃ st1 st2, runSync envStateEmpty { } = .ok st1 ∧
      runSync envStateEmpty st1.store = .ok st2 ∧
      st2.stats.releases.updated = 1 :=
  ⟨runSyncD envStateEmpty { },
   runSyncD envStateEmpty (runSyncD envStateEmpty { }).store, rfl, rfl, rfl⟩

/-- C1 witness: the amended idempotence theorem instantiated on the
one-release, one-feature dataset: the second run counts one unchanged
release and one unchanged feature and nothing else. -/
theorem sync_idempotent_witness :
    (runSyncD envOneFeature (runSyncD envOneFeature { }).store).stats =
      { releases := { unchanged := 1 }, features := { unchanged := 1 } } := by
  have h1 : runSync envOneFeature { } = .ok (runSyncD envOneFeature { }) := rfl
  have h2 : runSync envOneFeature (runSyncD envOneFeature { }).store =
      .ok (runSyncD envOneFeature (runSyncD envOneFeature { }).store) := rfl
  have hdet : ∀ fid raw, envOneFeature.featureDetailResult fid = .ok (some raw) →
      raw.id = fid := by
    intro fid raw h
    by_cases hf : fid = "f1"
    · subst hf
      have h3 : (Except.ok (some ({ id := "f1", name := "F1" } : RawFeature)) :
          Except String (Option RawFeature)) = .ok (some raw) := h
      injection h3 with h4
      injection h4 with h5
      rw [← h5]
    · have h3 : (Except.ok (none : Option RawFeature) :
          Except String (Option RawFeature)) = .ok (some raw) := by
        rw [show envOneFeature.featureDetailResult fid =
            .ok (none : Option RawFeature) from by simp [envOneFeature, hf]] at h
        exact h
      injection h3 with h4
      cases h4
  exact sync_idempotent envOneFeature (runSyncD envOneFeature { })
    (runSyncD envOneFeature (runSyncD envOneFeature { }).store)
    (fun n => rfl) (by decide) (by decide) (by decide) hdet h1 h2

end PBSync
